import Mathlib

/-!
# Verification of the config-copilot conversational questionnaire pipeline

This file gives a shallow embedding, in Lean 4, of the data model and the
operations of the `config-copilot` repository (Python), and proves the
behavioural properties stated in its specification.

Conventions of the embedding:
* Python dictionaries become association lists (`List (String × _)`) with
  Python's insertion-order semantics: assignment to an existing key updates
  it in place, assignment to a fresh key appends it at the end.
* Question records (as produced by `qdrant_retriever.py`) are association
  lists over a field-value type `Fval`; full JSON documents (as handled by
  the phase extractors) use the richer type `Jval`.
* Network and LLM calls are abstracted as oracle arguments: a function
  argument supplies, for each call, either the value the call produced or
  the fact that it raised.  Everything around the calls is translated
  directly from the source.
* A Python function that can raise to its caller returns `Except`/`Option`;
  a function that catches all exceptions internally returns a plain value.
-/

namespace ConfigCopilot

/-! ## Python string helpers -/

/-- Characters stripped by Python's `str.strip()`. -/
def pyWhitespace (c : Char) : Bool :=
  c = ' ' || c = '\t' || c = '\n' || c = '\x0d' || c = '\x0b' || c = '\x0c'

/-- Python `str.strip()` on a character list. -/
def pyStripList (l : List Char) : List Char :=
  ((l.dropWhile pyWhitespace).reverse.dropWhile pyWhitespace).reverse

/-- Python `str.strip()`. -/
def pyStrip (s : String) : String :=
  ⟨pyStripList s.data⟩

/-- Python `str.rstrip(',')`: remove trailing commas. -/
def pyRstripComma (s : String) : String :=
  ⟨(s.data.reverse.dropWhile (· = ',')).reverse⟩

/-- `needle in haystack` for character lists (Python substring test). -/
def listContainsSub (needle : List Char) : List Char → Bool
  | [] => needle.isEmpty
  | c :: rest => needle.isPrefixOf (c :: rest) || listContainsSub needle rest

/-- Python `needle in haystack` on strings. -/
def pyContainsSub (haystack needle : String) : Bool :=
  listContainsSub needle.data haystack.data

/-- Python `str.lower()` (ASCII, which is all the repository uses). -/
def pyLower (s : String) : String :=
  ⟨s.data.map Char.toLower⟩

/-- Python `str.startswith(pre)`. -/
def pyStartsWith (s pre : String) : Bool :=
  pre.data.isPrefixOf s.data

/-- Python `str.endswith(suf)`. -/
def pyEndsWith (s suf : String) : Bool :=
  suf.data.isSuffixOf s.data

/-- Python `s[n:]`. -/
def pyDropChars (s : String) (n : Nat) : String :=
  ⟨s.data.drop n⟩

/-- Python `s[:n]`. -/
def pyTakeChars (s : String) (n : Nat) : String :=
  ⟨s.data.take n⟩

/-- Python `str.replace(a, b)` for single characters (used as
`tag_lower.replace(" ", "_")` in `qdrant_retriever.py`). -/
def pyReplaceChar (s : String) (a b : Char) : String :=
  ⟨s.data.map (fun c => if c = a then b else c)⟩

/-- Python `range(start, stop)` (step 1). -/
def pyRange (start stop : Nat) : List Nat :=
  (List.range (stop - start)).map (· + start)

/-! ## Question records

`qdrant_retriever.py` builds question objects as flat JSON dictionaries
whose values are strings, booleans, numbers, or lists of strings.  We model
such a record as an association list over `Fval`. -/

/-- A field value of a question record. -/
inductive Fval where
  | s (v : String)
  | b (v : Bool)
  | i (v : Int)
  | l (v : List String)
  deriving DecidableEq, Repr

/-- A question record: a Python dict with insertion order. -/
abbrev Question := List (String × Fval)

/-- Dictionary lookup, `d.get(k)`; Python keeps the latest assignment, and
`setKey` below updates in place, so the first match is the current value. -/
def lookupKey (d : List (String × Fval)) (k : String) : Option Fval :=
  match d with
  | [] => none
  | (k', v) :: rest => if k' = k then some v else lookupKey rest k

/-- Python `d[k] = v`: update in place if `k` is present, else append. -/
def setKey (d : List (String × Fval)) (k : String) (v : Fval) : List (String × Fval) :=
  match d with
  | [] => [(k, v)]
  | (k', v') :: rest => if k' = k then (k, v) :: rest else (k', v') :: setKey rest k v

/-- `q["questions"]` — the text of a question record (all records built by
the retriever carry this key; absent keys default to the empty string). -/
def questionText (q : Question) : Fval :=
  (lookupKey q "questions").getD (.s "")

/-- `q.get("categoryID", "General")` from
`ConversationalAgent._organize_questions_by_category`. -/
def categoryKey (q : Question) : Fval :=
  (lookupKey q "categoryID").getD (.s "General")

/-! ## `intent_analyzer.validate_and_expand_tags` (lines 111–128) -/

/-- `validate_and_expand_tags`: lowercase both lists, keep the input tags
that occur in the available tags, and fall back to `["core hr", "payroll"]`
when none does. -/
def validate_and_expand_tags (tags available_tags : List String) : List String :=
  let tags_lower := tags.map pyLower
  let available_lower := available_tags.map pyLower
  let valid_tags := tags_lower.filter (fun t => t ∈ available_lower)
  if valid_tags = [] then ["core hr", "payroll"] else valid_tags

/-- `QuestionRetriever.get_all_available_tags` (qdrant_retriever.py,
lines 109–124). -/
def get_all_available_tags : List String :=
  ["core hr", "payroll", "benefits", "compensation", "absence management",
   "time and labor", "talent management", "recruiting", "onboarding", "learning"]

/-! ## `QuestionRetriever.fetch_questions_by_tags` (qdrant_retriever.py, lines 21–107)

The HTTP round trip for one tag is abstracted as an oracle.  For a given
(lowercased) tag the API call can: raise `requests.RequestException`
(caught by the inner `except`, which moves on to the next tag); succeed
with a list of result items; or return data whose processing raises some
other exception (e.g. a non-dict item), which escapes the inner `except
requests.RequestException` and is caught only by the outer handler, making
the whole function return `[]`. -/

/-- One result item of the RAG API: `item.get("text", "")`,
`item.get("metadata", {})`, `item.get("score", 0)`. -/
structure ApiItem where
  text : String
  metadata : List (String × Fval)
  score : Fval
  deriving DecidableEq, Repr

/-- Outcome of the per-tag API call. -/
inductive TagFetch where
  /-- `requests.RequestException`: logged, `continue` to the next tag. -/
  | reqError
  /-- Successful response with its `results` list. -/
  | ok (items : List ApiItem)
  /-- Any other exception while handling this tag's response: propagates to
  the outer handler, which returns `[]`. -/
  | broken
  deriving DecidableEq

/-- `metadata.get(k, default)`. -/
def metaGet (m : List (String × Fval)) (k : String) (default : Fval) : Fval :=
  match m.find? (fun p => p.1 = k) with
  | some p => p.2
  | none => default

/-- The question object built for one retrieved item (lines 79–94):
`question_id = f"{tag_lower.replace(' ', '_')}_{len(all_questions) + 1}"`. -/
def mkQuestionObj (tagLower : String) (numSoFar : Nat) (item : ApiItem) : Question :=
  let question_id := pyReplaceChar tagLower ' ' '_' ++ "_" ++ toString (numSoFar + 1)
  [("id", .s question_id),
   ("categoryID", metaGet item.metadata "pillar" (.s tagLower)),
   ("questions", .s item.text),
   ("mandatoryField", .s (if item.text.length > 50 then
      ⟨item.text.data.take 50⟩ ++ "..." else item.text)),
   ("isrequired", .b false),
   ("tags", .l [tagLower]),
   ("domain", metaGet item.metadata "domain" (.s tagLower)),
   ("pillar", metaGet item.metadata "pillar" (.s "")),
   ("facet", metaGet item.metadata "facet" (.s "")),
   ("composite_tag", metaGet item.metadata "composite_tag" (.s "")),
   ("score", item.score)]

/-- The inner `for idx, item in enumerate(results)` loop: skip items whose
text was already seen, otherwise record the text and append the question
object.  Threads the global `question_texts_seen` set and `all_questions`
list. -/
def fetchItemsLoop (tagLower : String) :
    List ApiItem → List String → List Question → List String × List Question
  | [], seen, allQ => (seen, allQ)
  | item :: rest, seen, allQ =>
    if item.text ∈ seen then fetchItemsLoop tagLower rest seen allQ
    else fetchItemsLoop tagLower rest (item.text :: seen)
      (allQ ++ [mkQuestionObj tagLower allQ.length item])

/-- The outer `for tag in tags` loop; `none` means an exception escaped to
the outer handler. -/
def fetchTagsLoop (api : String → TagFetch) :
    List String → List String → List Question → Option (List Question)
  | [], _, allQ => some allQ
  | tag :: rest, seen, allQ =>
    let tagLower := pyLower tag
    match api tagLower with
    | .reqError => fetchTagsLoop api rest seen allQ
    | .broken => none
    | .ok items =>
      let (seen', allQ') := fetchItemsLoop tagLower items seen allQ
      fetchTagsLoop api rest seen' allQ'

/-- `fetch_questions_by_tags`: run the tag loop; the outer `except` turns
any escaped exception into `[]`. -/
def fetch_questions_by_tags (tags : List String) (api : String → TagFetch) :
    List Question :=
  (fetchTagsLoop api tags [] []).getD []

/-! ## `answer_filler.prefill_answers_from_consolidated` (answer_filler.py, lines 11–58)
and `_fill_question_batch` (lines 78–182)

The per-batch LLM call plus JSON parsing plus `answer_map` construction is
abstracted as one oracle per batch: `none` means some step of the `try`
block raised (the `except` then returns plain copies of the batch), `some
answers` means `json.loads` produced a list of answer dicts each carrying
an `"id"`. -/

/-- One parsed answer record; the `Option` fields model `ans.get(...)`
with its default. -/
structure AnswerRec where
  id : Fval
  answer : Option Fval
  confidence : Option Fval
  source : Option Fval

/-- Python dict assignment for the answer map: update in place, else
append. -/
def setAnsKey (m : List (Fval × AnswerRec)) (k : Fval) (a : AnswerRec) :
    List (Fval × AnswerRec) :=
  match m with
  | [] => [(k, a)]
  | (k', a') :: rest => if k' = k then (k, a) :: rest else (k', a') :: setAnsKey rest k a

/-- `answer_map = {ans["id"]: ans for ans in answers_data}` — a dict
comprehension, so a later record with the same id overwrites an earlier
one. -/
def buildAnswerMap (answers : List AnswerRec) : List (Fval × AnswerRec) :=
  answers.foldl (fun m a => setAnsKey m a.id a) []

/-- The keys the prompt-building f-strings of `_fill_question_batch` read
(`q['id']`, `q['categoryID']`, `q['mandatoryField']`, `q['questions']`,
`q['isrequired']`, answer_filler.py lines 90–97). -/
def promptKeys : List String :=
  ["id", "categoryID", "mandatoryField", "questions", "isrequired"]

/-- Whether a question record carries every key the prompt builder reads. -/
def hasPromptKeys (q : Question) : Bool :=
  promptKeys.all (fun k => (lookupKey q k).isSome)

/-- `_fill_question_batch`.  The prompt-building f-strings read the five
`promptKeys` of every question (lines 90–97) *before* the `try` at
line 137, so a record missing one of them raises `KeyError` to the caller
(`none`).  With the prompt built, any error inside the `try` — the LLM
call, the response cleaning and parsing, or the answer mapping, abstracted
as the `oracle` (`none` = raised) — lands in the `except`, which returns
`q.copy()` for each question; on success each question's copy is extended
with `answer`, `confidence` and `source` (defaults `""`, `"low"`,
`"not_found"` when the id is missing from the answer map). -/
def fill_question_batch (questions : List Question)
    (oracle : Option (List AnswerRec)) : Option (List Question) :=
  if questions.all hasPromptKeys then
    some (match oracle with
      | none => questions.map id
      | some answers =>
        let amap := buildAnswerMap answers
        questions.map (fun q =>
          let qid := (lookupKey q "id").getD (.s "")
          match amap.find? (fun p => p.1 = qid) with
          | some p =>
            let ans := p.2
            setKey (setKey (setKey q "answer" (ans.answer.getD (.s "")))
              "confidence" (ans.confidence.getD (.s "medium")))
              "source" (ans.source.getD (.s ""))
          | none =>
            setKey (setKey (setKey q "answer" (.s ""))
              "confidence" (.s "low"))
              "source" (.s "not_found")))
  else none

/-- The `for i in range(0, len(questions), batch_size)` loop with
`batch_size = 20`; `bi` is the running batch index selecting the oracle
outcome of that batch's LLM call.  A `KeyError` raised by a batch's prompt
construction (`fill_question_batch` = `none`) aborts the whole loop and
propagates (`none`).  The first argument is structural fuel;
`prefill_answers_from_consolidated` passes the question count, which
bounds the number of batches. -/
def prefillGo (oracle : Nat → Option (List AnswerRec)) :
    Nat → Nat → List Question → Option (List Question)
  | 0, _, _ => some []
  | _ + 1, _, [] => some []
  | fuel + 1, bi, q :: rest =>
    match fill_question_batch ((q :: rest).take 20) (oracle bi) with
    | none => none
    | some filled_batch =>
      match prefillGo oracle fuel (bi + 1) ((q :: rest).drop 20) with
      | none => none
      | some rest_filled => some (filled_batch ++ rest_filled)

/-- `prefill_answers_from_consolidated`: empty input short-circuits to
`[]`; otherwise process the questions in batches of 20; a `KeyError`
raised in a batch's prompt construction propagates to the caller
(`none`). -/
def prefill_answers_from_consolidated (questions : List Question)
    (oracle : Nat → Option (List AnswerRec)) : Option (List Question) :=
  if questions = [] then some []
  else prefillGo oracle questions.length 0 questions

/-! ## `ConversationalAgent._organize_questions_by_category`
(conversational_agent.py, lines 506–517) and the identical grouping in
`questionnaire_filler_argus.fill_questionnaire_with_consolidated_data`
(questionnaire_filler_argus.py, lines 43–48)

Both build `categories = {}` and, for each question in order, append it to
`categories[q.get("categoryID", "General")]`, creating the entry on first
use.  We model the dict of lists as an association list in insertion
order. -/

/-- Append `q` to the category `c` of `cats`, creating the entry at the end
if `c` is new (Python `dict` insertion-order semantics). -/
def addToCategory (cats : List (Fval × List Question)) (c : Fval) (q : Question) :
    List (Fval × List Question) :=
  match cats with
  | [] => [(c, [q])]
  | (c', l) :: rest =>
    if c' = c then (c, l ++ [q]) :: rest else (c', l) :: addToCategory rest c q

/-- `_organize_questions_by_category`, as a function of the displayed
questions. -/
def organize_questions_by_category (qs : List Question) :
    List (Fval × List Question) :=
  qs.foldl (fun cats q => addToCategory cats (categoryKey q) q) []

/-- The category grouping loop of
`fill_questionnaire_with_consolidated_data` (same code shape:
`categories.setdefault-by-hand` over `q.get("categoryID", "General")`). -/
def fill_questionnaire_categories (qs : List Question) :
    List (Fval × List Question) :=
  qs.foldl (fun cats q => addToCategory cats (categoryKey q) q) []

/-! ## The conversational agent state machine
(conversational_agent.py)

`initialize` (lines 62–134) stores the *same* list object in
`state["all_questions"]` and `state["displayed_questions"]` (lines
110–111), and `_update_displayed_questions` (line 499) re-establishes that
aliasing after every message.  Consequently the two keys always denote one
shared list; the state below carries it once, as `all_questions`.  Inside
`_fetch_and_add_new_questions`, `all_questions.append(q)` followed by
`displayed_questions.append(q)` (lines 395–396) therefore appends `q` to
the shared list twice. -/

/-- The agent state restricted to the fields the claims speak about.
`all_questions` also is `displayed_questions` (they alias the same list
object, see above). -/
structure AgentState where
  current_tags : List String
  all_questions : List Question
  categories : List (Fval × List Question)
  extracted_facts : List (String × Fval)
  deriving Repr

/-- Result of `_fetch_and_add_new_questions`, together with the events the
claims are about: whether the `if not valid_tags: return` branch fired,
and the argument of each `fetch_questions_by_tags` call. -/
structure FetchAddResult where
  state : AgentState
  emptyValidReturn : Bool
  fetchCalls : List (List String)
  merged : List Question

/-- `_fetch_and_add_new_questions` (lines 354–401).  `api` is the RAG API
oracle and `ansOracle` the per-batch answer-filling oracle. -/
def fetch_and_add_new_questions (s : AgentState) (new_tags : List String)
    (api : String → TagFetch) (ansOracle : Nat → Option (List AnswerRec)) :
    FetchAddResult :=
  let valid_tags := validate_and_expand_tags new_tags get_all_available_tags
  if valid_tags = [] then
    { state := s, emptyValidReturn := true, fetchCalls := [], merged := [] }
  else
    -- add to current tags, avoiding duplicates
    let tags' := valid_tags.foldl
      (fun cur t => if t ∈ cur then cur else cur ++ [t]) s.current_tags
    let s := { s with current_tags := tags' }
    let new_questions := fetch_questions_by_tags valid_tags api
    if new_questions = [] then
      { state := s, emptyValidReturn := false, fetchCalls := [valid_tags], merged := [] }
    else
      -- every record built by the retriever carries the five prompt keys
      -- (`fetch_questions_all`), so the prefill cannot raise here and the
      -- `.getD []` branch is dead (`prefill_forall₂`)
      let filled := (prefill_answers_from_consolidated new_questions ansOracle).getD []
      let existing := s.all_questions.map questionText
      let merged := filled.filter (fun q => questionText q ∉ existing)
      -- each kept question is appended to `all_questions` and then to
      -- `displayed_questions`; both name the same list, so it lands twice
      let pool := merged.foldl (fun p q => p ++ [q, q]) s.all_questions
      let s' := { s with all_questions := pool,
                         categories := organize_questions_by_category pool }
      { state := s', emptyValidReturn := false, fetchCalls := [valid_tags],
        merged := merged }

/-- The result of `_analyze_message_context` that `process_message`
consumes (`analysis.get(...)` with defaults). -/
structure Analysis where
  needs_new_questions : Bool
  new_tags : List String
  extracted_info : List (String × Fval)

/-- `dict.update` for the extracted-facts dictionary. -/
def updateFacts (d : List (String × Fval)) (upd : List (String × Fval)) :
    List (String × Fval) :=
  upd.foldl (fun acc p => setKey acc p.1 p.2) d

/-- One update record of `_batch_update_answers`' parsed LLM response:
`update.get("question_id")` and `update.get("new_answer")`. -/
structure AnswerUpdate where
  question_id : Option Fval
  new_answer : Option Fval

/-- Python truthiness of a field value. -/
def fvalFalsy : Fval → Bool
  | .s v => v = ""
  | .b v => v = false
  | .i v => v = 0
  | .l v => v = []

/-- Apply one update of `_batch_update_answers` (lines 470–486): skip falsy
answers (`if not new_answer: continue`), else set `answer` and
`updated_from_conversation` on the first displayed question whose
`q.get("id")` equals the update's `question_id`. -/
def applyAnswerUpdate (pool : List Question) (u : AnswerUpdate) : List Question :=
  match u.new_answer with
  | none => pool
  | some ans =>
    if fvalFalsy ans then pool
    else
      let rec go : List Question → List Question
        | [] => []
        | q :: rest =>
          if lookupKey q "id" = u.question_id then
            setKey (setKey q "answer" ans) "updated_from_conversation" (.b true) :: rest
          else q :: go rest
      go pool

/-- `_batch_update_answers` (lines 414–492): questions needing an update
are those with no answer or answer `"Not Available"`, limited to the first
10; the LLM call and parse are one oracle (`none` = exception: no state
change). -/
def batch_update_answers (pool : List Question)
    (updOracle : Option (List AnswerUpdate)) : List Question :=
  let questions_to_update := (pool.filter (fun q =>
    match lookupKey q "answer" with
    | none => true
    | some a => fvalFalsy a || a = .s "Not Available")).take 10
  if questions_to_update = [] then pool
  else match updOracle with
    | none => pool
    | some updates => updates.foldl applyAnswerUpdate pool

/-- Result of `process_message` with the event record the claims need. -/
structure ProcessResult where
  state : AgentState
  fetchCalls : List (List String)
  merged : List Question

/-- `process_message` (lines 136–202), state-update part.  The analysis of
the user message (step 1) is the `analysis` argument (its own errors are
already replaced by the default dict inside `_analyze_message_context`);
response generation (step 6) does not touch the state fields modelled
here. -/
def process_message (s : AgentState) (analysis : Analysis)
    (api : String → TagFetch) (ansOracle : Nat → Option (List AnswerRec))
    (updOracle : Option (List AnswerUpdate)) : ProcessResult :=
  -- step 2: facts update
  let s := { s with extracted_facts := updateFacts s.extracted_facts analysis.extracted_info }
  -- step 3: fetch new questions if needed (`if needs_new_questions and new_tags:`)
  let fa :=
    if analysis.needs_new_questions ∧ analysis.new_tags ≠ [] then
      let r := fetch_and_add_new_questions s analysis.new_tags api ansOracle
      (r.state, r.fetchCalls, r.merged)
    else (s, [], [])
  let s := fa.1
  -- step 4: update answers based on new information
  let s :=
    if analysis.extracted_info ≠ [] then
      { s with all_questions := batch_update_answers s.all_questions updOracle }
    else s
  -- step 5: displayed := all (aliasing re-established), re-organize
  let s := { s with categories := organize_questions_by_category s.all_questions }
  { state := s, fetchCalls := fa.2.1, merged := fa.2.2 }

/-- `initialize` (lines 62–134), state-update part: fetch questions for the
intent tags (falling back to `["core hr", "payroll"]` when none are
found), pre-fill them, store them as both `all_questions` and
`displayed_questions` (one shared list), and organize categories. -/
def initializeAgent (initial_tags : List String)
    (api : String → TagFetch) (ansOracle : Nat → Option (List AnswerRec)) :
    AgentState :=
  let questions := fetch_questions_by_tags initial_tags api
  let questions :=
    if questions = [] then fetch_questions_by_tags ["core hr", "payroll"] api
    else questions
  -- retrieved records always carry the five prompt keys
  -- (`fetch_questions_all`), so the prefill cannot raise here and the
  -- `.getD []` branch is dead (`prefill_forall₂`)
  let filled := (prefill_answers_from_consolidated questions ansOracle).getD []
  { current_tags := initial_tags, all_questions := filled,
    categories := organize_questions_by_category filled, extracted_facts := [] }

/-! ## `llm_wrapper.call_llm_api_async` (llm_wrapper.py, lines 28–122)

Each attempt's chat-completion call is an oracle outcome: either it raised
an exception, or it returned a message content together with a
`finish_reason`.  The `await asyncio.sleep(..)` calls are recorded in a
trace so that the retry behaviour is fully visible. -/

/-- Outcome of one `llm_client.chat.completions.create` call. -/
inductive LLMAttempt where
  | exn (msg : String)
  | ok (content : String) (finishReason : String)
  deriving DecidableEq

/-- Python truthiness of an optional string argument (`None` and `""` are
falsy). -/
def optTruthy : Option String → Bool
  | none => false
  | some s => s ≠ ""

/-- The message-building prelude (lines 61–75).  `none` means the
`ValueError` is raised. -/
def buildMessages (prompt system_prompt user_prompt : Option String) :
    Option (List (String × String)) :=
  if optTruthy system_prompt ∧ optTruthy user_prompt then
    some [("system", system_prompt.getD ""), ("user", user_prompt.getD "")]
  else if optTruthy prompt then
    some [("user", prompt.getD "")]
  else if optTruthy user_prompt then
    some [("user", user_prompt.getD "")]
  else
    none

/-- The retry loop (lines 77–122).  `i` is the current attempt index,
`remaining` the number of loop iterations left (`attempt < max_retries - 1`
is `remaining > 1`).  Returns the result string and the list of sleep
durations performed. -/
def llmRetryLoop (attempts : Nat → LLMAttempt) :
    Nat → Nat → String × List Nat
  | _, 0 => ("Error: Max retries exceeded", [])
  | i, remaining + 1 =>
    match attempts i with
    | .exn msg =>
      if remaining > 0 then
        let (r, sleeps) := llmRetryLoop attempts (i + 1) remaining
        (r, 2 :: sleeps)
      else ("Error calling LLM API: " ++ msg, [])
    | .ok content finishReason =>
      if finishReason = "length" ∧ remaining > 0 then
        let (r, sleeps) := llmRetryLoop attempts (i + 1) remaining
        (r, 1 :: sleeps)
      else
        let stripped := pyStrip content
        if pyEndsWith stripped "\x7d" = true ∨ pyEndsWith stripped "]" = true ∨ finishReason = "stop" then
          (content, [])
        else if remaining > 0 then
          let (r, sleeps) := llmRetryLoop attempts (i + 1) remaining
          (r, 1 :: sleeps)
        else (content, [])

/-- `call_llm_api_async` with `max_retries = 3`.  `.error ()` is the
`ValueError` raised when no usable prompt argument was given; `.ok` carries
the returned string and the sleep trace. -/
def call_llm_api_async (prompt system_prompt user_prompt : Option String)
    (attempts : Nat → LLMAttempt) : Except Unit (String × List Nat) :=
  match buildMessages prompt system_prompt user_prompt with
  | none => .error ()
  | some _ => .ok (llmRetryLoop attempts 0 3)

/-! ## Batch processing of the nine phases

`app.py` (`generate_all_phases`, lines 193–210) runs
`asyncio.gather(*tasks)` over batches of three phases;
`ConversationalAgent._get_or_generate_consolidated`
(conversational_agent.py, lines 219–245) builds the same batches but then
`await`s each phase's coroutine one after the other — bare coroutines are
not scheduled until awaited, so that loop is sequential and performs no
`asyncio.gather`.  Both loops sleep two seconds after a batch whenever
`batch_start + batch_size < 9`.  We record each loop as a trace of
events. -/

/-- An event of a batch-processing loop. -/
inductive BatchEvent where
  | gather (phases : List Nat)
  | awaitPhase (phase : Nat)
  | sleepSec (n : Nat)
  deriving DecidableEq, Repr

/-- `range(0, len(all_phases), batch_size)` with `batch_size = 3` over nine
phases. -/
def batchStarts : List Nat := [0, 3, 6]

/-- The batch loop of `app.py::generate_all_phases`:
`batch_phases = all_phases[batch_start:batch_start+batch_size]` is gathered
at once, then the conditional sleep. -/
def appBatchTrace : List BatchEvent :=
  batchStarts.flatMap (fun bs =>
    let all_phases := pyRange 1 10
    let batch_phases := (all_phases.drop bs).take 3
    [BatchEvent.gather batch_phases] ++
      (if bs + 3 < 9 then [BatchEvent.sleepSec 2] else []))

/-- The batch loop of
`ConversationalAgent._get_or_generate_consolidated`:
`batch_phases = list(range(batch_start+1, min(batch_start+batch_size+1, 10)))`,
each of whose coroutines is awaited in sequence, then the conditional
sleep. -/
def agentConsolidatedTrace : List BatchEvent :=
  batchStarts.flatMap (fun bs =>
    let batch_phases := pyRange (bs + 1) (min (bs + 3 + 1) 10)
    batch_phases.map BatchEvent.awaitPhase ++
      (if bs + 3 < 9 then [BatchEvent.sleepSec 2] else []))

/-- The `is_cancelled_callback=lambda: False` passed by
`app.py::process_single_phase` (line 100). -/
def appIsCancelledCallback : Unit → Bool := fun _ => false

/-- The `is_cancelled_callback=lambda: False` passed by
`ConversationalAgent._get_or_generate_consolidated` (line 232). -/
def agentIsCancelledCallback : Unit → Bool := fun _ => false

/-! ## JSON documents

The phase extractors handle full JSON documents.  `Jval` models a parsed
`json.loads` value; numbers are restricted to integers (the repository's
templates and the claims' inputs use no floats — a document with a float
simply falls outside this embedding's parser). -/

/-- A JSON value.  Objects are association lists in insertion order
(duplicate keys collapse to the last one, as in Python). -/
inductive Jval where
  | str (s : String)
  | num (n : Int)
  | bool (b : Bool)
  | null
  | arr (elems : List Jval)
  | obj (fields : List (String × Jval))
  deriving Repr

/-- A JSON object as a Python dict. -/
abbrev Jobj := List (String × Jval)

/-- Python `d[k] = v` on a JSON object. -/
def jSetKey (d : Jobj) (k : String) (v : Jval) : Jobj :=
  match d with
  | [] => [(k, v)]
  | (k', v') :: rest => if k' = k then (k, v) :: rest else (k', v') :: jSetKey rest k v

/-- Python `dict.update(sub)`. -/
def jUpdate (d : Jobj) (sub : Jobj) : Jobj :=
  sub.foldl (fun acc p => jSetKey acc p.1 p.2) d

/-- `d.get(k)` on a JSON object (current value of the key). -/
def jLookup (d : Jobj) (k : String) : Option Jval :=
  match d.find? (fun p => p.1 = k) with
  | some p => some p.2
  | none => none

/-! ### A model of `json.loads` -/

/-- JSON whitespace. -/
def jsonWs (c : Char) : Bool :=
  c = ' ' || c = '\t' || c = '\n' || c = '\x0d'

/-- Parse the body of a JSON string literal (after the opening quote),
returning content and remainder.  Common escapes are supported; `\uXXXX`
and raw control characters make the parse fail. -/
def parseStringBody : List Char → Option (List Char × List Char)
  | [] => none
  | c :: rest =>
    if c = '"' then some ([], rest)
    else if c = '\\' then
      match rest with
      | [] => none
      | e :: rest' =>
        let esc : Option Char :=
          if e = '"' then some '"'
          else if e = '\\' then some '\\'
          else if e = '/' then some '/'
          else if e = 'n' then some '\n'
          else if e = 't' then some '\t'
          else if e = 'r' then some '\x0d'
          else if e = 'b' then some '\x08'
          else if e = 'f' then some '\x0c'
          else none
        match esc with
        | none => none
        | some ch => (parseStringBody rest').map (fun p => (ch :: p.1, p.2))
    else if c = '\n' || c = '\x0d' || c = '\t' then none
    else (parseStringBody rest).map (fun p => (c :: p.1, p.2))

/-- Parse a JSON integer (floats are outside this embedding). -/
def parseNumber (l : List Char) : Option (Jval × List Char) :=
  let (sign, l') := match l with
    | '-' :: r => (true, r)
    | _ => (false, l)
  let ds := l'.takeWhile Char.isDigit
  let rest := l'.dropWhile Char.isDigit
  if ds = [] then none
  else if ds.head? = some '0' ∧ ds.length > 1 then none
  else match rest with
    | '.' :: _ => none
    | 'e' :: _ => none
    | 'E' :: _ => none
    | _ =>
      let n : Nat := ds.foldl (fun n c => n * 10 + (c.toNat - 48)) 0
      some (.num (if sign then -(n : Int) else (n : Int)), rest)

mutual

/-- Parse one JSON value, skipping leading whitespace. -/
def parseVal : Nat → List Char → Option (Jval × List Char)
  | 0, _ => none
  | fuel + 1, l =>
    match l.dropWhile jsonWs with
    | [] => none
    | c :: rest =>
      if c = '"' then (parseStringBody rest).map (fun p => (.str ⟨p.1⟩, p.2))
      else if c = '\x7b' then
        match rest.dropWhile jsonWs with
        | '\x7d' :: r => some (.obj [], r)
        | r =>
          (parseObjItems fuel r).map (fun p =>
            (.obj (p.1.foldl (fun d q => jSetKey d q.1 q.2) []), p.2))
      else if c = '[' then
        match rest.dropWhile jsonWs with
        | ']' :: r => some (.arr [], r)
        | r => (parseArrItems fuel r).map (fun p => (.arr p.1, p.2))
      else if c = 't' then
        if ['r', 'u', 'e'].isPrefixOf rest then some (.bool true, rest.drop 3) else none
      else if c = 'f' then
        if ['a', 'l', 's', 'e'].isPrefixOf rest then some (.bool false, rest.drop 4) else none
      else if c = 'n' then
        if ['u', 'l', 'l'].isPrefixOf rest then some (.null, rest.drop 3) else none
      else parseNumber (c :: rest)

/-- Parse the items of a non-empty JSON array (positioned at the first
item), up to and including the closing bracket. -/
def parseArrItems : Nat → List Char → Option (List Jval × List Char)
  | 0, _ => none
  | fuel + 1, l =>
    match parseVal fuel l with
    | none => none
    | some (v, r) =>
      match r.dropWhile jsonWs with
      | ',' :: r' => (parseArrItems fuel r').map (fun p => (v :: p.1, p.2))
      | ']' :: r' => some ([v], r')
      | _ => none

/-- Parse the members of a non-empty JSON object (positioned at the first
key), up to and including the closing brace, as raw key/value pairs in
textual order; the caller folds them into a dict so that a duplicate key
overwrites the earlier one, as `json.loads` does. -/
def parseObjItems : Nat → List Char → Option (List (String × Jval) × List Char)
  | 0, _ => none
  | fuel + 1, l =>
    match l.dropWhile jsonWs with
    | '"' :: r =>
      match parseStringBody r with
      | none => none
      | some (k, r') =>
        match r'.dropWhile jsonWs with
        | ':' :: r'' =>
          match parseVal fuel r'' with
          | none => none
          | some (v, r3) =>
            match r3.dropWhile jsonWs with
            | ',' :: r4 =>
              (parseObjItems fuel r4).map (fun p => ((⟨k⟩, v) :: p.1, p.2))
            | '\x7d' :: r4 => some ([(⟨k⟩, v)], r4)
            | _ => none
        | _ => none
    | _ => none

end

/-- `json.loads`: the whole input must be a single document surrounded by
at most whitespace. -/
def jsonParse (s : String) : Option Jval :=
  match parseVal (4 * (s.length + 1)) s.data with
  | some (v, rest) => if rest.dropWhile jsonWs = [] then some v else none
  | none => none

/-! ### Python `str()`/`repr()` of a parsed JSON value

Needed for `flatten_json`'s `str(value)` branch.  `repr` of a string uses
single quotes, switching to double quotes when the string contains a
single quote but no double quote; only quote and backslash escaping is
modelled (control-character escapes do not occur in the inputs
considered). -/

/-- Python `repr` of a string. -/
def pyReprStr (s : String) : String :=
  let sq : Char := Char.ofNat 39
  let dq : Char := '"'
  if s.data.contains sq ∧ ¬ s.data.contains dq then
    ⟨dq :: (s.data.flatMap (fun c => if c = '\\' then ['\\', '\\'] else [c])) ++ [dq]⟩
  else
    ⟨sq :: (s.data.flatMap (fun c =>
        if c = '\\' then ['\\', '\\']
        else if c = sq then ['\\', sq]
        else [c])) ++ [sq]⟩

mutual

/-- Python `repr()` of a JSON-shaped value (which is what `str()` produces
for lists and dicts). -/
def pyReprOf : Jval → String
  | .str s => pyReprStr s
  | .num n => toString n
  | .bool true => "True"
  | .bool false => "False"
  | .null => "None"
  | .arr xs => "[" ++ pyReprElems xs ++ "]"
  | .obj fs => "\x7b" ++ pyReprFields fs ++ "\x7d"

/-- Comma-joined `repr`s of list elements. -/
def pyReprElems : List Jval → String
  | [] => ""
  | [x] => pyReprOf x
  | x :: y :: rest => pyReprOf x ++ ", " ++ pyReprElems (y :: rest)

/-- Comma-joined `repr`s of dict items. -/
def pyReprFields : List (String × Jval) → String
  | [] => ""
  | [(k, v)] => pyReprStr k ++ ": " ++ pyReprOf v
  | (k, v) :: p :: rest => pyReprStr k ++ ": " ++ pyReprOf v ++ ", " ++ pyReprFields (p :: rest)

end

/-! ## `BasePhaseExtractor._validate_extracted_data` / `flatten_json`
(phase_extractors/base_extractor.py, lines 307–335) -/

/-- `isinstance(item, str)`. -/
def jIsStr : Jval → Bool
  | .str _ => true
  | _ => false

/-- `isinstance(item, dict)`. -/
def jIsObj : Jval → Bool
  | .obj _ => true
  | _ => false

/-- `new_key = f"{parent_key}{separator}{key}" if parent_key else key` with
`separator = '_'`. -/
def mkFlatKey (parent k : String) : String :=
  if parent = "" then k else parent ++ "_" ++ k

/-- `', '.join(value)` for a list of strings. -/
def joinCommaSpace (xs : List Jval) : String :=
  ", ".intercalate (xs.map (fun v => match v with | .str s => s | _ => ""))

mutual

/-- The `for key, value in data.items()` loop of `flatten_json`, threading
the `flattened` dict. -/
def flattenGo : List (String × Jval) → String → Jobj → Jobj
  | [], _, acc => acc
  | (k, v) :: rest, parent, acc =>
    if pyStartsWith k "_" then flattenGo rest parent acc
    else flattenGo rest parent (flattenEntry k v parent acc)

/-- Handling of a single key/value pair of `flatten_json`. -/
def flattenEntry (k : String) (v : Jval) (parent : String) (acc : Jobj) : Jobj :=
  let newKey := mkFlatKey parent k
  match v with
  | .obj fs => jUpdate acc (flattenGo fs newKey [])
  | .arr xs =>
    if xs.all jIsStr then
      jSetKey acc newKey (.str (if xs.isEmpty then "Not Available" else joinCommaSpace xs))
    else if xs.all jIsObj then flattenArrGo xs newKey 0 acc
    else
      -- `flattened[new_key] = str(value) if value else 'Not Available'`
      -- (an empty list is caught by the all-strings branch, so here the
      -- list is non-empty, but the conditional is kept as written)
      jSetKey acc newKey (.str (if xs.isEmpty then "Not Available" else pyReprOf (.arr xs)))
  | .null => jSetKey acc newKey (.str "Not Available")
  | other => jSetKey acc newKey other

/-- The `for i, item in enumerate(value)` loop for a list of dicts. -/
def flattenArrGo : List Jval → String → Nat → Jobj → Jobj
  | [], _, _, acc => acc
  | item :: rest, base, i, acc =>
    flattenArrGo rest base (i + 1)
      (jUpdate acc (flattenArrItem item (base ++ "_" ++ toString i)))

/-- `flatten_json(item, f"{new_key}_{i}")` for one item of a list of dicts
(the non-dict case is unreachable under the all-dicts guard). -/
def flattenArrItem : Jval → String → Jobj
  | .obj fs, key => flattenGo fs key []
  | _, _ => []

end

/-- `_validate_extracted_data`: `flatten_json(extracted_data)` with empty
parent key and a fresh accumulator. -/
def validate_extracted_data (extracted_data : Jobj) : Jobj :=
  flattenGo extracted_data "" []

/-! ## `BasePhaseExtractor._clean_json_response` (base_extractor.py,
lines 235–281) and `_aggressive_json_repair` (lines 283–305) -/

/-- `str.split('\n')` on a character list. -/
def splitNlAux : List Char → List Char → List (List Char)
  | [], acc => [acc.reverse]
  | c :: rest, acc =>
    if c = '\n' then acc.reverse :: splitNlAux rest []
    else splitNlAux rest (c :: acc)

/-- `str.split('\n')`. -/
def splitNl (l : List Char) : List (List Char) :=
  splitNlAux l []

/-- `'\n'.join(...)`. -/
def joinNl (lines : List (List Char)) : List Char :=
  match lines with
  | [] => []
  | [l] => l
  | l :: l' :: rest => l ++ '\n' :: joinNl (l' :: rest)

/-- `str.split(sep)` for a non-empty separator (Python semantics). -/
def splitOnSubAux (sep : List Char) : List Char → List Char → List (List Char)
  | [], acc => [acc.reverse]
  | c :: rest, acc =>
    if h : sep.isPrefixOf (c :: rest) ∧ sep ≠ [] then
      acc.reverse :: splitOnSubAux sep ((c :: rest).drop sep.length) []
    else
      splitOnSubAux sep rest (c :: acc)
termination_by l _ => l.length
decreasing_by
  · simp only [List.length_drop, List.length_cons]
    have : 1 ≤ sep.length := by
      cases hs : sep with
      | nil => exact absurd hs h.2
      | cons a t => simp
    omega
  · simp

/-- `str.split(sep)`. -/
def pySplitOn (s sep : String) : List String :=
  (splitOnSubAux sep.data s.data []).map (fun l => ⟨l⟩)

/-- Whitespace class of the regex `\s`. -/
def reWs (c : Char) : Bool :=
  c = ' ' || c = '\t' || c = '\n' || c = '\x0d' || c = '\x0b' || c = '\x0c'

/-- `re.sub(r',\s*X', 'X', ...)` for a closing character `X`: a left-to-
right scan replacing each non-overlapping match.  The first argument is
structural fuel; each step consumes at least one character, so the input
length suffices. -/
def reSubCommaCloseGo (close : Char) : Nat → List Char → List Char
  | 0, l => l
  | _ + 1, [] => []
  | fuel + 1, c :: rest =>
    if c = ',' then
      match rest.dropWhile reWs with
      | c' :: rest' =>
        if c' = close then close :: reSubCommaCloseGo close fuel rest'
        else ',' :: reSubCommaCloseGo close fuel rest
      | [] => ',' :: reSubCommaCloseGo close fuel rest
    else c :: reSubCommaCloseGo close fuel rest

/-- `re.sub(r',\s*X', 'X', ...)`. -/
def reSubCommaClose (close : Char) (l : List Char) : List Char :=
  reSubCommaCloseGo close l.length l

/-- Whether the text contains a match of `,\s*X`. -/
def hasCommaWsClose (close : Char) : List Char → Bool
  | [] => false
  | c :: rest =>
    (c = ',' && (match rest.dropWhile reWs with
                 | c' :: _ => c' = close
                 | [] => false))
    || hasCommaWsClose close rest

/-- Last index of a line satisfying `p` (the `for i in range(len(lines)-1,
-1, -1)` scan). -/
def findLastIdx (p : List Char → Bool) (lines : List (List Char)) : Option Nat :=
  match lines.reverse.findIdx? p with
  | some j => some (lines.length - 1 - j)
  | none => none

/-- `line.strip().endswith(('},', '}', ','))`. -/
def truncLineHit (line : List Char) : Bool :=
  let s : String := ⟨pyStripList line⟩
  pyEndsWith s "\x7d," || pyEndsWith s "\x7d" || pyEndsWith s ","

/-- The truncation-repair block of `_clean_json_response` (lines 250–260):
runs only when the response does not end with `'}'` or `']'`; cuts at the
last line that ends (stripped) with `'},'`, `'}'` or `','`, then forces a
closing brace. -/
def fixTruncation (r : String) : String :=
  if pyEndsWith r "\x7d" = true ∨ pyEndsWith r "]" = true then r
  else
    let lines := splitNl r.data
    match findLastIdx truncLineHit lines with
    | none => r
    | some i =>
      let resp : String := ⟨joinNl (lines.take (i + 1))⟩
      if pyEndsWith (pyStrip resp) "\x7d" then resp
      else pyRstripComma resp ++ "\n\x7d"

/-- The markdown-fence removal at the head of `_clean_json_response`
(lines 238–243). -/
def stripFenceClean (response : String) : String :=
  if pyContainsSub response "```json" then
    let afterTag := (pySplitOn response "```json").getD 1 ""
    pyStrip ((pySplitOn afterTag "```").getD 0 "")
  else if pyContainsSub response "```" then
    let parts := pySplitOn response "```"
    if parts.length ≥ 3 then pyStrip (parts.getD 1 "") else response
  else response

/-- `_aggressive_json_repair` (lines 283–305): keep the non-blank lines up
to the last one that ends (stripped) with `','` or `'}'`, drop trailing
commas, force a closing brace; `none` when no such line exists. -/
def aggressive_json_repair (response : String) : Option String :=
  let lines := (splitNl response.data).filter (fun l => pyStripList l ≠ [])
  let hit := fun (line : List Char) =>
    let s : String := ⟨pyStripList line⟩
    pyEndsWith s "," || pyEndsWith s "\x7d"
  match findLastIdx hit lines with
  | none => none
  | some i =>
    let repaired : String := ⟨joinNl (lines.take (i + 1))⟩
    let repaired := pyRstripComma repaired
    if pyEndsWith repaired "\x7d" then some repaired
    else some (repaired ++ "\n\x7d")

/-- `_clean_json_response`: fence removal, strip, truncation repair,
trailing-comma cleanup, `json.loads`, and on failure one aggressive-repair
retry; `.error` is the `Exception` finally raised. -/
def clean_json_response (response : String) : Except String Jval :=
  let r := stripFenceClean response
  let r := pyStrip r
  let r := fixTruncation r
  let r : String := ⟨reSubCommaClose '\x7d' r.data⟩
  let r : String := ⟨reSubCommaClose ']' r.data⟩
  match jsonParse r with
  | some v => .ok v
  | none =>
    match aggressive_json_repair r with
    | some rep =>
      match jsonParse rep with
      | some v => .ok v
      | none => .error "Failed to parse JSON response"
    | none => .error "Failed to parse JSON response"

/-! ## `intent_analyzer.extract_intent_tags` (intent_analyzer.py,
lines 11–108)

The LLM round trip is an oracle: `.error` when the call itself raised,
`.ok response` otherwise.  The `try` block then strips markdown fences,
parses the JSON, and lowercases the tags; `json.JSONDecodeError` yields the
`["core hr", "payroll"]` default, any other exception the `["core hr"]`
default. -/

/-- The fence stripping of `extract_intent_tags` (lines 71–78): strip,
drop a leading ```json or ``` marker, drop a trailing ``` marker,
strip again. -/
def stripFencesIntent (response : String) : String :=
  let r := pyStrip response
  let r := if pyStartsWith r "```json" then pyDropChars r 7 else r
  let r := if pyStartsWith r "```" then pyDropChars r 3 else r
  let r := if pyEndsWith r "```" then pyTakeChars r (r.length - 3) else r
  pyStrip r

/-- The default returned on `json.JSONDecodeError` (lines 91–99). -/
def intentParseErrorDefault : Jval :=
  .obj [("tags", .arr [.str "core hr", .str "payroll"]),
        ("reasoning", .str "Default HR modules due to parsing error"),
        ("focus_areas", .arr [.str "Human Resources"])]

/-- The default returned on any other exception (lines 100–108). -/
def intentOtherErrorDefault : Jval :=
  .obj [("tags", .arr [.str "core hr"]),
        ("reasoning", .str "Error in intent extraction"),
        ("focus_areas", .arr [.str "General"])]

/-- `[tag.lower() for tag in v]`: Python iterates strings over their
characters and dicts over their keys; `.lower()` on a non-string raises
(`none`). -/
def pyIterLower : Jval → Option (List String)
  | .arr xs =>
    if xs.all jIsStr then
      some (xs.map (fun v => match v with | .str s => pyLower s | _ => ""))
    else none
  | .str s => some (s.data.map (fun c => pyLower ⟨[c]⟩))
  | .obj fs => some (fs.map (fun p => pyLower p.1))
  | _ => none

/-- `if "tags" in intent_data` — Python `in` on the parsed value: key test
for dicts, membership for lists, substring test for strings, `TypeError`
(`none`) otherwise. -/
def pyContainsTags : Jval → Option Bool
  | .obj fs => some (fs.any (fun p => p.1 = "tags"))
  | .arr xs => some (xs.any (fun v => match v with | .str s => s = "tags" | _ => false))
  | .str s => some (pyContainsSub s "tags")
  | _ => none

/-- The tag-lowercasing step (lines 83–84); `none` when it raises. -/
def lowercaseTagsStep (intent_data : Jval) : Option Jval :=
  match pyContainsTags intent_data with
  | none => none
  | some false => some intent_data
  | some true =>
    match intent_data with
    | .obj fs =>
      match jLookup fs "tags" with
      | none => some (.obj fs)
      | some v =>
        match pyIterLower v with
        | none => none
        | some tags => some (.obj (jSetKey fs "tags" (.arr (tags.map .str))))
    | _ => none  -- `intent_data["tags"]` on a non-dict raises `TypeError`

/-- `extract_intent_tags`, as a function of the LLM-call outcome. -/
def extract_intent_tags (llm : Except String String) : Jval :=
  match llm with
  | .error _ => intentOtherErrorDefault
  | .ok response =>
    match jsonParse (stripFencesIntent response) with
    | none => intentParseErrorDefault
    | some intent_data =>
      match lowercaseTagsStep intent_data with
      | none => intentOtherErrorDefault
      | some result => result

/-! ## `BasePhaseExtractor.extract_json_fields` (base_extractor.py,
lines 23–79)

Template loading, search-data I/O, prompt construction and the saving of
results are outside the claims; the flow from the LLM response to the
returned value (or the re-raised exception) is modelled.  The function's
`except` clause logs and **re-raises** (lines 77–79), so every failure
propagates to the caller as `.error`. -/

/-- `extract_json_fields` on the LLM extraction response (cancellation is
constantly false in both call sites, so the early-return branches do not
fire). -/
def extract_json_fields (extraction_response : String) : Except String Jobj :=
  if pyStartsWith extraction_response "Error:" then
    .error ("LLM API error: " ++ extraction_response)
  else
    match clean_json_response extraction_response with
    | .error e => .error e
    | .ok extracted_json =>
      match extracted_json with
      | .obj fields => .ok (validate_extracted_data fields)
      | _ => .error "AttributeError: flatten_json iterates data.items()"

/-! ## Auxiliary predicates used by the statements -/

/-- A JSON value that is neither a dict nor a list. -/
def jIsFlat : Jval → Bool
  | .obj _ => false
  | .arr _ => false
  | _ => true

/-- The three keys `_fill_question_batch` writes into a question copy. -/
def answerFields : List String := ["answer", "confidence", "source"]

/-- Whether a batch event is an `asyncio.gather`. -/
def isGatherEvent : BatchEvent → Bool
  | .gather _ => true
  | _ => false

/-! # Theorems -/

/-! ## Shared lemmas -/

/-- `validate_and_expand_tags` never returns the empty list. -/
theorem validate_ne_nil (tags avail : List String) :
    validate_and_expand_tags tags avail ≠ [] := by
  simp only [validate_and_expand_tags]
  split
  · simp
  · next h => exact h

/-- `buildMessages` fails exactly when neither `prompt` nor `user_prompt`
is truthy. -/
theorem buildMessages_eq_none_iff (p s u : Option String) :
    buildMessages p s u = none ↔ ¬ optTruthy p = true ∧ ¬ optTruthy u = true := by
  unfold buildMessages
  split_ifs with h1 h2 h3 <;> simp_all

/-- A truthy `prompt` or `user_prompt` makes `buildMessages` succeed. -/
theorem buildMessages_isSome (p s u : Option String)
    (h : optTruthy p = true ∨ optTruthy u = true) :
    ∃ ms, buildMessages p s u = some ms := by
  cases hb : buildMessages p s u with
  | some ms => exact ⟨ms, rfl⟩
  | none =>
    rw [buildMessages_eq_none_iff] at hb
    rcases h with h | h
    · exact absurd h hb.1
    · exact absurd h hb.2

/-- The retry loop only looks at the attempts it performs. -/
theorem llmRetryLoop_congr (rem : Nat) :
    ∀ (i : Nat) (att att' : Nat → LLMAttempt),
      (∀ j, i ≤ j → j < i + rem → att j = att' j) →
      llmRetryLoop att i rem = llmRetryLoop att' i rem := by
  induction rem with
  | zero => intro i att att' _; rfl
  | succ n ih =>
    intro i att att' h
    have h0 : att i = att' i := h i le_rfl (by omega)
    have hrec : llmRetryLoop att (i + 1) n = llmRetryLoop att' (i + 1) n :=
      ih (i + 1) att att' (fun j hj1 hj2 => h j (by omega) (by omega))
    simp only [llmRetryLoop, h0, hrec]

/-! ## C9 -/

/-- C9: `validate_and_expand_tags` never returns an empty list: its result
is the sublist of lowercased input tags occurring case-insensitively in the
available tags when that sublist is non-empty, and exactly
`["core hr", "payroll"]` otherwise; consequently the empty-`valid_tags`
early-return branch of `_fetch_and_add_new_questions` never fires. -/
theorem C9_validate_tags_never_empty :
    (∀ tags avail : List String,
        validate_and_expand_tags tags avail ≠ [] ∧
        validate_and_expand_tags tags avail =
          (if (tags.map pyLower).filter (fun t => t ∈ avail.map pyLower) = []
           then ["core hr", "payroll"]
           else (tags.map pyLower).filter (fun t => t ∈ avail.map pyLower))) ∧
    (∀ (s : AgentState) (new_tags : List String) (api : String → TagFetch)
        (ansO : Nat → Option (List AnswerRec)),
        (fetch_and_add_new_questions s new_tags api ansO).emptyValidReturn = false) := by
  constructor
  · intro tags avail
    exact ⟨validate_ne_nil tags avail, rfl⟩
  · intro s new_tags api ansO
    simp only [fetch_and_add_new_questions]
    split
    · next h => exact absurd h (validate_ne_nil new_tags get_all_available_tags)
    · split <;> rfl

/-! ## C8 -/

/-- C8 fails as stated: in
`ConversationalAgent._get_or_generate_consolidated` the nine phase
extractions are *not* processed via `asyncio.gather` — the loop awaits the
batch's coroutines one after the other, so its event trace contains no
gather event at all. -/
theorem C8_counterexample :
    agentConsolidatedTrace.filter isGatherEvent = [] ∧
    agentConsolidatedTrace =
      [.awaitPhase 1, .awaitPhase 2, .awaitPhase 3, .sleepSec 2,
       .awaitPhase 4, .awaitPhase 5, .awaitPhase 6, .sleepSec 2,
       .awaitPhase 7, .awaitPhase 8, .awaitPhase 9] := by
  exact ⟨rfl, rfl⟩

/-- C8 amended: `app.py`'s batch loop processes the nine phases in batches
of at most three via `asyncio.gather` with a fixed 2-second sleep after
every batch except the last; the agent's consolidated generation builds the
same batches of at most three but awaits each phase's coroutine
sequentially (with the same sleeps); the cancellation callback passed to
the extractors is constantly false at both call sites. -/
theorem C8_batching_structure :
    appBatchTrace =
      [.gather [1, 2, 3], .sleepSec 2, .gather [4, 5, 6], .sleepSec 2,
       .gather [7, 8, 9]] ∧
    appBatchTrace.all
      (fun e => match e with | .gather ps => decide (ps.length ≤ 3) | _ => true) = true ∧
    agentConsolidatedTrace =
      [.awaitPhase 1, .awaitPhase 2, .awaitPhase 3, .sleepSec 2,
       .awaitPhase 4, .awaitPhase 5, .awaitPhase 6, .sleepSec 2,
       .awaitPhase 7, .awaitPhase 8, .awaitPhase 9] ∧
    appIsCancelledCallback () = false ∧
    agentIsCancelledCallback () = false := by
  refine ⟨rfl, rfl, rfl, rfl, rfl⟩

/-! ## C5 -/

/-- C5 fails as stated: an attempt that completes with a response ending in
`'}'` is *not* returned when its `finish_reason` is `"length"` and attempts
remain — the loop sleeps and retries, and a later attempt's response is
returned instead. -/
theorem C5_counterexample :
    call_llm_api_async none none (some "p")
        (fun i => if i = 0 then .ok "\x7b\x7d" "length" else .ok "X" "stop") =
      .ok ("X", [1]) ∧
    pyEndsWith (pyStrip "\x7b\x7d") "\x7d" = true ∧
    "X" ≠ "\x7b\x7d" := by
  refine ⟨rfl, by decide, by decide⟩

/-- C5 amended: `call_llm_api_async` makes at most 3 attempts (the result
depends only on attempts 0–2); when every attempt raises, it sleeps twice
and returns `"Error calling LLM API: " ++` the last message instead of
raising; the `ValueError` is raised exactly when neither `prompt` nor
`user_prompt` is truthy; and a completed attempt's response is returned
as soon as it ends with `'}'`/`']'` or has finish reason `"stop"`,
*provided* its finish reason is not `"length"` (stated here for the first
attempt). -/
theorem C5_retry_loop_behaviour :
    (∀ (att att' : Nat → LLMAttempt) (p s u : Option String),
        (∀ j, j < 3 → att j = att' j) →
        call_llm_api_async p s u att = call_llm_api_async p s u att') ∧
    (∀ (p s u : Option String) (att : Nat → LLMAttempt) (m0 m1 m2 : String),
        (optTruthy p = true ∨ optTruthy u = true) →
        att 0 = .exn m0 → att 1 = .exn m1 → att 2 = .exn m2 →
        call_llm_api_async p s u att = .ok ("Error calling LLM API: " ++ m2, [2, 2])) ∧
    (∀ (p s u : Option String) (att : Nat → LLMAttempt),
        call_llm_api_async p s u att = .error () ↔
          ¬ optTruthy p = true ∧ ¬ optTruthy u = true) ∧
    (∀ (p s u : Option String) (att : Nat → LLMAttempt) (c r : String),
        (optTruthy p = true ∨ optTruthy u = true) →
        att 0 = .ok c r → r ≠ "length" →
        (pyEndsWith (pyStrip c) "\x7d" = true ∨ pyEndsWith (pyStrip c) "]" = true ∨
          r = "stop") →
        call_llm_api_async p s u att = .ok (c, [])) := by
  refine ⟨?_, ?_, ?_, ?_⟩
  · intro att att' p s u h
    unfold call_llm_api_async
    cases hb : buildMessages p s u with
    | none => rfl
    | some ms =>
      have := llmRetryLoop_congr 3 0 att att' (fun j _ hj => h j (by omega))
      rw [this]
  · intro p s u att m0 m1 m2 htru h0 h1 h2
    obtain ⟨ms, hms⟩ := buildMessages_isSome p s u htru
    unfold call_llm_api_async
    rw [hms]
    simp [llmRetryLoop, h0, h1, h2]
  · intro p s u att
    unfold call_llm_api_async
    cases hb : buildMessages p s u with
    | none =>
      simp only []
      rw [buildMessages_eq_none_iff] at hb
      simpa using hb
    | some ms =>
      constructor
      · intro h; simp at h
      · intro hcon
        have hn : buildMessages p s u = none :=
          (buildMessages_eq_none_iff p s u).mpr hcon
        rw [hb] at hn
        cases hn
  · intro p s u att c r htru h0 hlen hend
    obtain ⟨ms, hms⟩ := buildMessages_isSome p s u htru
    unfold call_llm_api_async
    rw [hms]
    simp only [llmRetryLoop, h0]
    rw [if_neg (by simp [hlen])]
    rw [if_pos (by simpa using hend)]

/-- Witness for the amended C5 theorem at concrete inputs. -/
theorem C5_retry_loop_behaviour_witness :
    call_llm_api_async (some "p") none none (fun _ => .exn "boom") =
      .ok ("Error calling LLM API: boom", [2, 2]) ∧
    call_llm_api_async none none (some "u") (fun _ => .ok "done" "stop") =
      .ok ("done", []) ∧
    (call_llm_api_async none (some "s") none (fun _ => .ok "z" "stop") = .error () ↔
      ¬ optTruthy (none : Option String) = true ∧
        ¬ optTruthy (none : Option String) = true) ∧
    call_llm_api_async none none (some "u")
        (fun i => if i < 3 then .exn "e" else .ok "zz" "stop") =
      call_llm_api_async none none (some "u") (fun _ => .exn "e") := by
  refine ⟨?_, ?_, ?_, ?_⟩
  · exact C5_retry_loop_behaviour.2.1 (some "p") none none _ "boom" "boom" "boom"
      (Or.inl (by decide)) rfl rfl rfl
  · exact C5_retry_loop_behaviour.2.2.2 none none (some "u") _ "done" "stop"
      (Or.inr (by decide)) rfl (by decide) (Or.inr (Or.inr rfl))
  · exact C5_retry_loop_behaviour.2.2.1 none (some "s") none (fun _ => .ok "z" "stop")
  · exact C5_retry_loop_behaviour.1 _ _ none none (some "u")
      (fun j hj => by simp [hj])

/-! ## C4 -/

/-- A tag whose response handling raises outside
`requests.RequestException` aborts the whole fetch. -/
theorem fetchTagsLoop_broken (api : String → TagFetch) :
    ∀ (tags seen : List String) (allQ : List Question),
      (∃ t ∈ tags, api (pyLower t) = .broken) →
      fetchTagsLoop api tags seen allQ = none := by
  intro tags
  induction tags with
  | nil =>
    intro seen allQ h
    obtain ⟨t, ht, _⟩ := h
    cases ht
  | cons t rest ih =>
    intro seen allQ h
    obtain ⟨t', ht', hb⟩ := h
    simp only [fetchTagsLoop]
    rcases List.mem_cons.mp ht' with rfl | hmem
    · rw [hb]
    · cases hapi : api (pyLower t) with
      | reqError => exact ih seen allQ ⟨t', hmem, hb⟩
      | broken => rfl
      | ok items => exact ih _ _ ⟨t', hmem, hb⟩

/-- C4 fails as stated: `BasePhaseExtractor.extract_json_fields` re-raises
its caught exception instead of replacing it with a default — here the
`"Error:"`-prefixed LLM response makes the raised exception propagate to
the caller. -/
theorem C4_counterexample :
    extract_json_fields "Error: boom" = .error ("LLM API error: Error: boom") := rfl

/-- C4 amended: `extract_intent_tags` returns the
`{"tags": ["core hr", "payroll"], ...}` default on a JSON-parsing error and
the `{"tags": ["core hr"], ...}` default on a failed LLM call;
`fetch_questions_by_tags` returns `[]` when any per-tag response handling
raises past the inner handler; `_fill_question_batch` replaces any error
raised inside its `try` block (LLM call, parsing, answer mapping) with
copies of its input questions — but an error in the prompt construction
before the `try` (a record missing one of the keys id / categoryID /
mandatoryField / questions / isrequired) propagates to the caller, and
`extract_json_fields` re-raises its caught exception, so not every
operation replaces its error with a default. -/
theorem C4_error_replacement :
    (∀ e, extract_intent_tags (.error e) = intentOtherErrorDefault) ∧
    (∀ resp, jsonParse (stripFencesIntent resp) = none →
        extract_intent_tags (.ok resp) = intentParseErrorDefault) ∧
    (∀ (tags : List String) (api : String → TagFetch),
        (∃ t ∈ tags, api (pyLower t) = .broken) →
        fetch_questions_by_tags tags api = []) ∧
    (∀ batch : List Question, batch.all hasPromptKeys = true →
        fill_question_batch batch none = some batch) ∧
    (∀ (batch : List Question) (o : Option (List AnswerRec)),
        batch.all hasPromptKeys = false → fill_question_batch batch o = none) ∧
    (∀ resp, pyStartsWith resp "Error:" = true →
        extract_json_fields resp = .error ("LLM API error: " ++ resp)) := by
  refine ⟨fun e => rfl, ?_, ?_, ?_, ?_, ?_⟩
  · intro resp h
    simp only [extract_intent_tags, h]
  · intro tags api h
    unfold fetch_questions_by_tags
    rw [fetchTagsLoop_broken api tags [] [] h]
    rfl
  · intro batch hk
    simp [fill_question_batch, hk]
  · intro batch o hk
    simp [fill_question_batch, hk]
  · intro resp h
    simp [extract_json_fields, h]

/-- Witness for the amended C4 theorem at concrete inputs. -/
theorem C4_error_replacement_witness :
    extract_intent_tags (.ok "not json") = intentParseErrorDefault ∧
    fetch_questions_by_tags ["core hr"] (fun _ => .broken) = [] ∧
    fill_question_batch
      [[("id", Fval.s "q1"), ("categoryID", Fval.s "c"),
        ("mandatoryField", Fval.s "f"), ("questions", Fval.s "t"),
        ("isrequired", Fval.b false)]] none =
      some [[("id", Fval.s "q1"), ("categoryID", Fval.s "c"),
        ("mandatoryField", Fval.s "f"), ("questions", Fval.s "t"),
        ("isrequired", Fval.b false)]] ∧
    fill_question_batch [[("id", Fval.s "q1")]] none = none ∧
    extract_json_fields "Error: x" = .error ("LLM API error: Error: x") := by
  refine ⟨?_, ?_, ?_, ?_, ?_⟩
  · exact C4_error_replacement.2.1 "not json" rfl
  · exact C4_error_replacement.2.2.1 ["core hr"] (fun _ => .broken)
      ⟨"core hr", by simp, rfl⟩
  · exact C4_error_replacement.2.2.2.1
      [[("id", Fval.s "q1"), ("categoryID", Fval.s "c"),
        ("mandatoryField", Fval.s "f"), ("questions", Fval.s "t"),
        ("isrequired", Fval.b false)]] (by rfl)
  · exact C4_error_replacement.2.2.2.2.1 [[("id", Fval.s "q1")]] none (by rfl)
  · exact C4_error_replacement.2.2.2.2.2 "Error: x" (by rfl)

/-! ## C10 -/

/-- `setKey` changes no key other than its own. -/
theorem lookupKey_setKey_ne (q : Question) (k k' : String) (v : Fval)
    (h : k' ≠ k) : lookupKey (setKey q k v) k' = lookupKey q k' := by
  induction q with
  | nil => simp [setKey, lookupKey, h.symm]
  | cons p rest ih =>
    obtain ⟨pk, pv⟩ := p
    by_cases hpk : pk = k
    · subst hpk
      simp [setKey, lookupKey, h.symm]
    · by_cases hpk' : pk = k'
      · subst hpk'
        simp [setKey, hpk, lookupKey]
      · simp [setKey, hpk, lookupKey, hpk', ih]

/-- The three answer-field writes of `_fill_question_batch` leave every
other field unchanged. -/
theorem lookupKey_setAnswerFields (q : Question) (a c s : Fval) (k : String)
    (hk : k ∉ answerFields) :
    lookupKey (setKey (setKey (setKey q "answer" a) "confidence" c) "source" s) k =
      lookupKey q k := by
  have ha : k ≠ "answer" := by rintro rfl; exact hk (by simp [answerFields])
  have hc : k ≠ "confidence" := by rintro rfl; exact hk (by simp [answerFields])
  have hs : k ≠ "source" := by rintro rfl; exact hk (by simp [answerFields])
  rw [lookupKey_setKey_ne _ _ _ _ hs, lookupKey_setKey_ne _ _ _ _ hc,
    lookupKey_setKey_ne _ _ _ _ ha]

/-- For a batch whose records all carry the prompt keys, the prompt
construction succeeds and the output is one record per input question, in
order, agreeing with its input off the answer fields. -/
theorem fill_question_batch_forall₂ (batch : List Question)
    (o : Option (List AnswerRec)) (hk : batch.all hasPromptKeys = true) :
    ∃ out, fill_question_batch batch o = some out ∧
      List.Forall₂
        (fun q out => ∀ k, k ∉ answerFields → lookupKey out k = lookupKey q k)
        batch out := by
  unfold fill_question_batch
  rw [if_pos hk]
  refine ⟨_, rfl, ?_⟩
  cases o with
  | none =>
    simp only [List.map_id]
    exact List.forall₂_same.mpr (fun q _ k _ => rfl)
  | some answers =>
    rw [List.forall₂_map_right_iff]
    refine List.forall₂_same.mpr (fun q _ => ?_)
    intro k hk'
    cases hfind : (buildAnswerMap answers).find?
        (fun p => p.1 = (lookupKey q "id").getD (.s "")) with
    | some p => simpa [hfind] using lookupKey_setAnswerFields q _ _ _ k hk'
    | none => simpa [hfind] using lookupKey_setAnswerFields q _ _ _ k hk'

/-- The batching loop succeeds and preserves the per-question frame
relation whenever all records carry the prompt keys and the fuel covers
the question count. -/
theorem prefillGo_forall₂ (oracle : Nat → Option (List AnswerRec)) :
    ∀ (fuel : Nat) (qs : List Question) (bi : Nat), qs.length ≤ fuel →
      qs.all hasPromptKeys = true →
      ∃ out, prefillGo oracle fuel bi qs = some out ∧
        List.Forall₂
          (fun q out => ∀ k, k ∉ answerFields → lookupKey out k = lookupKey q k)
          qs out := by
  intro fuel
  induction fuel with
  | zero =>
    intro qs bi h _
    have : qs = [] := List.length_eq_zero.mp (Nat.le_zero.mp h)
    subst this
    exact ⟨[], rfl, List.Forall₂.nil⟩
  | succ n ih =>
    intro qs bi h hall
    cases qs with
    | nil => exact ⟨[], rfl, List.Forall₂.nil⟩
    | cons q rest =>
      have hktake : ((q :: rest).take 20).all hasPromptKeys = true := by
        rw [List.all_eq_true] at hall ⊢
        exact fun x hx => hall x (List.take_subset 20 (q :: rest) hx)
      have hkdrop : ((q :: rest).drop 20).all hasPromptKeys = true := by
        rw [List.all_eq_true] at hall ⊢
        exact fun x hx => hall x (List.drop_subset 20 (q :: rest) hx)
      obtain ⟨out1, he1, hf1⟩ :=
        fill_question_batch_forall₂ ((q :: rest).take 20) (oracle bi) hktake
      obtain ⟨out2, he2, hf2⟩ := ih ((q :: rest).drop 20) (bi + 1)
        (by simp only [List.length_drop, List.length_cons] at h ⊢; omega) hkdrop
      refine ⟨out1 ++ out2, ?_, ?_⟩
      · simp only [prefillGo, he1, he2]
      · have h3 : List.Forall₂
            (fun q out => ∀ k, k ∉ answerFields → lookupKey out k = lookupKey q k)
            (List.take 20 (q :: rest) ++ List.drop 20 (q :: rest))
            (out1 ++ out2) := List.rel_append hf1 hf2
        rw [List.take_append_drop] at h3
        exact h3

/-- `prefill_answers_from_consolidated` succeeds on key-complete inputs,
with one output record per input in order. -/
theorem prefill_forall₂ (questions : List Question)
    (oracle : Nat → Option (List AnswerRec))
    (hk : questions.all hasPromptKeys = true) :
    ∃ out, prefill_answers_from_consolidated questions oracle = some out ∧
      List.Forall₂
        (fun q out => ∀ k, k ∉ answerFields → lookupKey out k = lookupKey q k)
        questions out ∧
      out.length = questions.length := by
  unfold prefill_answers_from_consolidated
  split
  · next hq => subst hq; exact ⟨[], rfl, List.Forall₂.nil, rfl⟩
  · obtain ⟨out, he, hf⟩ :=
      prefillGo_forall₂ oracle questions.length questions 0 le_rfl hk
    exact ⟨out, he, hf, hf.length_eq.symm⟩

/-- Every question object the retriever builds carries the five prompt
keys. -/
theorem mkQuestionObj_hasPromptKeys (tagLower : String) (n : Nat)
    (item : ApiItem) : hasPromptKeys (mkQuestionObj tagLower n item) = true := rfl

/-- The per-item loop of the retriever only appends key-complete
records. -/
theorem fetchItemsLoop_all (tagLower : String) :
    ∀ (items : List ApiItem) (seen : List String) (allQ : List Question),
      allQ.all hasPromptKeys = true →
      (fetchItemsLoop tagLower items seen allQ).2.all hasPromptKeys = true := by
  intro items
  induction items with
  | nil => intro seen allQ h; exact h
  | cons item rest ih =>
    intro seen allQ h
    by_cases hs : item.text ∈ seen
    · rw [fetchItemsLoop, if_pos hs]
      exact ih seen allQ h
    · rw [fetchItemsLoop, if_neg hs]
      refine ih _ _ ?_
      rw [List.all_append]
      simp [h, mkQuestionObj_hasPromptKeys]

/-- The per-tag loop of the retriever only returns key-complete records. -/
theorem fetchTagsLoop_all (api : String → TagFetch) :
    ∀ (tags seen : List String) (allQ : List Question),
      allQ.all hasPromptKeys = true →
      ∀ res, fetchTagsLoop api tags seen allQ = some res →
        res.all hasPromptKeys = true := by
  intro tags
  induction tags with
  | nil =>
    intro seen allQ h res he
    injection he with he'
    rw [← he']
    exact h
  | cons t rest ih =>
    intro seen allQ h res he
    rw [fetchTagsLoop] at he
    cases hapi : api (pyLower t) with
    | reqError =>
      rw [hapi] at he
      exact ih seen allQ h res he
    | broken =>
      rw [hapi] at he
      cases he
    | ok items =>
      rw [hapi] at he
      exact ih _ _ (fetchItemsLoop_all (pyLower t) items seen allQ h) res he

/-- Every record returned by `fetch_questions_by_tags` carries the five
prompt keys, so pre-filling retrieved questions never raises. -/
theorem fetch_questions_all (tags : List String) (api : String → TagFetch) :
    (fetch_questions_by_tags tags api).all hasPromptKeys = true := by
  unfold fetch_questions_by_tags
  cases he : fetchTagsLoop api tags [] [] with
  | none => rfl
  | some res => exact fetchTagsLoop_all api tags [] [] rfl res he

/-- C10 fails as stated: for a question record missing one of the keys the
prompt builder reads (here everything but `questions`), the prompt-building
f-strings of `_fill_question_batch` raise `KeyError` (answer_filler.py
lines 90–97, before the `try` at line 137), so
`prefill_answers_from_consolidated` propagates the exception and returns no
record list at all — not one record per input question. -/
theorem C10_counterexample :
    prefill_answers_from_consolidated [[("questions", Fval.s "t")]]
      (fun _ => none) = none ∧
    fill_question_batch [[("questions", Fval.s "t")]] none = none := by
  exact ⟨rfl, rfl⟩

/-- C10 amended: for question records carrying the keys the prompt builder
reads (`id`, `categoryID`, `mandatoryField`, `questions`, `isrequired` —
every record the retriever produces has them, see `fetch_questions_all`),
`prefill_answers_from_consolidated` returns exactly one record per input
question, in input order, each agreeing with its input on every field
other than `answer`, `confidence` and `source` (inputs are never mutated:
the filler writes only into `q.copy()`); a batch whose LLM call or parsing
fails yields plain copies; the empty input yields the empty output.  A
record missing one of those keys instead raises `KeyError` from the prompt
construction, before the `try`, and the call returns nothing. -/
theorem C10_prefill_one_record_per_question :
    (∀ (questions : List Question) (oracle : Nat → Option (List AnswerRec)),
        questions.all hasPromptKeys = true →
        ∃ out, prefill_answers_from_consolidated questions oracle = some out ∧
          List.Forall₂
            (fun q out => ∀ k, k ∉ answerFields →
              lookupKey out k = lookupKey q k) questions out ∧
          out.length = questions.length) ∧
    (∀ batch : List Question, batch.all hasPromptKeys = true →
        fill_question_batch batch none = some batch) ∧
    (∀ (batch : List Question) (o : Option (List AnswerRec)),
        batch.all hasPromptKeys = false → fill_question_batch batch o = none) ∧
    (∀ oracle : Nat → Option (List AnswerRec),
        prefill_answers_from_consolidated [] oracle = some []) := by
  refine ⟨?_, ?_, ?_, fun _ => rfl⟩
  · intro questions oracle hk
    exact prefill_forall₂ questions oracle hk
  · intro batch hk
    simp [fill_question_batch, hk]
  · intro batch o hk
    simp [fill_question_batch, hk]

/-- Witness for the amended C10 theorem at a concrete input. -/
theorem C10_prefill_one_record_per_question_witness :
    (∃ out, prefill_answers_from_consolidated
        [[("id", Fval.s "q1"), ("categoryID", Fval.s "c"),
          ("mandatoryField", Fval.s "f"), ("questions", Fval.s "t"),
          ("isrequired", Fval.b false)]]
        (fun _ => some [⟨Fval.s "q1", some (.s "yes"), none, none⟩]) =
          some out ∧
      List.Forall₂
        (fun q out => ∀ k, k ∉ answerFields → lookupKey out k = lookupKey q k)
        [[("id", Fval.s "q1"), ("categoryID", Fval.s "c"),
          ("mandatoryField", Fval.s "f"), ("questions", Fval.s "t"),
          ("isrequired", Fval.b false)]] out ∧
      out.length = 1) ∧
    fill_question_batch
      [[("id", Fval.s "q1"), ("categoryID", Fval.s "c"),
        ("mandatoryField", Fval.s "f"), ("questions", Fval.s "t"),
        ("isrequired", Fval.b false)]] none =
      some [[("id", Fval.s "q1"), ("categoryID", Fval.s "c"),
        ("mandatoryField", Fval.s "f"), ("questions", Fval.s "t"),
        ("isrequired", Fval.b false)]] := by
  constructor
  · exact C10_prefill_one_record_per_question.1
      [[("id", Fval.s "q1"), ("categoryID", Fval.s "c"),
        ("mandatoryField", Fval.s "f"), ("questions", Fval.s "t"),
        ("isrequired", Fval.b false)]]
      (fun _ => some [⟨Fval.s "q1", some (.s "yes"), none, none⟩]) (by rfl)
  · exact C10_prefill_one_record_per_question.2.1
      [[("id", Fval.s "q1"), ("categoryID", Fval.s "c"),
        ("mandatoryField", Fval.s "f"), ("questions", Fval.s "t"),
        ("isrequired", Fval.b false)]] (by rfl)

/-! ## C6 -/

/-- Keys after adding a question: unchanged when the category exists,
appended at the end otherwise. -/
theorem addToCategory_keys (cats : List (Fval × List Question)) (c : Fval)
    (q : Question) :
    (addToCategory cats c q).map Prod.fst =
      if c ∈ cats.map Prod.fst then cats.map Prod.fst
      else cats.map Prod.fst ++ [c] := by
  induction cats with
  | nil => simp [addToCategory]
  | cons p rest ih =>
    obtain ⟨ck, cl⟩ := p
    by_cases hck : ck = c
    · subst hck
      simp [addToCategory]
    · simp only [addToCategory, if_neg hck, List.map_cons, ih]
      by_cases hc : c ∈ rest.map Prod.fst
      · simp [hc, Ne.symm hck]
      · simp [hc, Ne.symm hck]

/-- Where an entry of `addToCategory cats c q` comes from (for category
dicts with distinct keys). -/
theorem mem_addToCategory (cats : List (Fval × List Question)) (c : Fval)
    (q : Question) (hnd : (cats.map Prod.fst).Nodup) :
    ∀ c' l', (c', l') ∈ addToCategory cats c q →
      (c' ≠ c ∧ (c', l') ∈ cats) ∨
      (c' = c ∧ ∃ l0, (c, l0) ∈ cats ∧ l' = l0 ++ [q]) ∨
      (c' = c ∧ c ∉ cats.map Prod.fst ∧ l' = [q]) := by
  induction cats with
  | nil =>
    intro c' l' hm
    simp only [addToCategory, List.mem_singleton, Prod.mk.injEq] at hm
    exact Or.inr (Or.inr ⟨hm.1, by simp, hm.2⟩)
  | cons p rest ih =>
    obtain ⟨ck, cl⟩ := p
    intro c' l' hm
    simp only [List.map_cons, List.nodup_cons] at hnd
    by_cases hck : ck = c
    · rw [addToCategory, if_pos hck] at hm
      rcases List.mem_cons.mp hm with he | hm2
      · have h1 : c' = c := congrArg Prod.fst he
        have h2 : l' = cl ++ [q] := congrArg Prod.snd he
        refine Or.inr (Or.inl ⟨h1, cl, ?_, h2⟩)
        rw [← hck]
        exact List.mem_cons_self _ _
      · have hne : c' ≠ c := fun he =>
          hnd.1 (by
            rw [hck]
            exact List.mem_map.mpr ⟨(c', l'), hm2, he⟩)
        exact Or.inl ⟨hne, List.mem_cons_of_mem _ hm2⟩
    · rw [addToCategory, if_neg hck] at hm
      rcases List.mem_cons.mp hm with he | hm2
      · have h1 : c' = ck := congrArg Prod.fst he
        refine Or.inl ⟨fun hcc => hck ?_, List.mem_cons.mpr (Or.inl he)⟩
        rw [← h1]
        exact hcc
      · rcases ih hnd.2 c' l' hm2 with ⟨hne, hmem⟩ | ⟨he, l0, hmem, hl⟩ | ⟨he, hnot, hl⟩
        · exact Or.inl ⟨hne, List.mem_cons_of_mem _ hmem⟩
        · exact Or.inr (Or.inl ⟨he, l0, List.mem_cons_of_mem _ hmem, hl⟩)
        · refine Or.inr (Or.inr ⟨he, ?_, hl⟩)
          simp only [List.map_cons, List.mem_cons, not_or]
          exact ⟨fun hcc => hck hcc.symm, hnot⟩

/-- The category dict built by `_organize_questions_by_category` has
pairwise-distinct keys; each entry's list is exactly the in-order filter of
the displayed questions with that category; every displayed question's
category is a key. -/
theorem organize_invariant (qs : List Question) :
    ((organize_questions_by_category qs).map Prod.fst).Nodup ∧
    (∀ c l, (c, l) ∈ organize_questions_by_category qs →
        l = qs.filter (fun q' => categoryKey q' = c)) ∧
    (∀ q' ∈ qs,
        categoryKey q' ∈ (organize_questions_by_category qs).map Prod.fst) := by
  induction qs using List.reverseRecOn with
  | nil => simp [organize_questions_by_category]
  | append_singleton qs q ih =>
    obtain ⟨ih1, ih2, ih3⟩ := ih
    have horg : organize_questions_by_category (qs ++ [q]) =
        addToCategory (organize_questions_by_category qs) (categoryKey q) q := by
      simp [organize_questions_by_category, List.foldl_append]
    have hkeys := addToCategory_keys (organize_questions_by_category qs)
      (categoryKey q) q
    refine ⟨?_, ?_, ?_⟩
    · rw [horg, hkeys]
      split
      · exact ih1
      · next hnot => simp [List.nodup_append, ih1, hnot]
    · intro c l hm
      rw [horg] at hm
      have hfil : (qs ++ [q]).filter (fun q' => categoryKey q' = c) =
          qs.filter (fun q' => categoryKey q' = c) ++
            (if categoryKey q = c then [q] else []) := by
        rw [List.filter_append]
        congr 1
        by_cases hqc : categoryKey q = c
        · simp [hqc]
        · simp [List.filter_singleton, hqc]
      rcases mem_addToCategory _ _ _ ih1 c l hm with
        ⟨hne, hmem⟩ | ⟨rfl, l0, hmem, rfl⟩ | ⟨rfl, hnot, rfl⟩
      · rw [hfil, if_neg (fun h => hne h.symm), List.append_nil]
        exact ih2 c l hmem
      · rw [hfil, if_pos rfl, ih2 _ _ hmem]
      · rw [hfil, if_pos rfl]
        have hnil : qs.filter (fun q' => categoryKey q' = categoryKey q) = [] := by
          rw [List.filter_eq_nil_iff]
          intro q' hq' hcq
          exact hnot (by
            have := ih3 q' hq'
            rwa [show categoryKey q' = categoryKey q from by simpa using hcq] at this)
        rw [hnil, List.nil_append]
    · intro q' hq'
      rw [horg, hkeys]
      rcases List.mem_append.mp hq' with hmem | hmem
      · have := ih3 q' hmem
        split
        · exact this
        · exact List.mem_append.mpr (Or.inl this)
      · have hq : q' = q := by simpa using hmem
        subst hq
        split
        · next hin => exact hin
        · exact List.mem_append.mpr (Or.inr (by simp))

/-- C6: the categorized display is a partition: the category dict built by
`_organize_questions_by_category` has pairwise-distinct category keys, each
category's list is exactly the subsequence of the displayed questions with
that `categoryID` (default `"General"`), in display order, and every
displayed question's category appears — so every displayed question occurs
in exactly one category list and the union of the lists is exactly the
displayed questions.  The grouping loop of
`fill_questionnaire_with_consolidated_data` is the same computation. -/
theorem C6_categorization_partition :
    ∀ qs : List Question,
      ((organize_questions_by_category qs).map Prod.fst).Nodup ∧
      (∀ c l, (c, l) ∈ organize_questions_by_category qs →
          l = qs.filter (fun q' => categoryKey q' = c)) ∧
      (∀ q' ∈ qs,
          categoryKey q' ∈ (organize_questions_by_category qs).map Prod.fst) ∧
      fill_questionnaire_categories qs = organize_questions_by_category qs := by
  intro qs
  obtain ⟨h1, h2, h3⟩ := organize_invariant qs
  exact ⟨h1, h2, h3, rfl⟩

/-- Witness for the C6 theorem at a concrete input. -/
theorem C6_categorization_partition_witness :
    (∀ c l, (c, l) ∈ organize_questions_by_category
        [[("categoryID", Fval.s "X"), ("id", Fval.s "1")],
         [("id", Fval.s "2")],
         [("categoryID", Fval.s "X"), ("id", Fval.s "3")]] →
      l = [[("categoryID", Fval.s "X"), ("id", Fval.s "1")],
           [("id", Fval.s "2")],
           [("categoryID", Fval.s "X"), ("id", Fval.s "3")]].filter
            (fun q' => categoryKey q' = c)) ∧
    organize_questions_by_category
      [[("categoryID", Fval.s "X"), ("id", Fval.s "1")],
       [("id", Fval.s "2")],
       [("categoryID", Fval.s "X"), ("id", Fval.s "3")]] =
      [(Fval.s "X", [[("categoryID", Fval.s "X"), ("id", Fval.s "1")],
                     [("categoryID", Fval.s "X"), ("id", Fval.s "3")]]),
       (Fval.s "General", [[("id", Fval.s "2")]])] := by
  constructor
  · exact (C6_categorization_partition
      [[("categoryID", Fval.s "X"), ("id", Fval.s "1")],
       [("id", Fval.s "2")],
       [("categoryID", Fval.s "X"), ("id", Fval.s "3")]]).2.1
  · rfl

/-! ## C3 -/

/-- Inside `_fetch_and_add_new_questions` the only retrieval call receives
exactly the validated tags. -/
theorem fetch_and_add_fetchCalls (s : AgentState) (nt : List String)
    (api : String → TagFetch) (ansO : Nat → Option (List AnswerRec)) :
    (fetch_and_add_new_questions s nt api ansO).fetchCalls =
      [validate_and_expand_tags nt get_all_available_tags] := by
  simp only [fetch_and_add_new_questions]
  split
  · next h => exact absurd h (validate_ne_nil nt get_all_available_tags)
  · split <;> rfl

/-- Every question merged by `_fetch_and_add_new_questions` comes from the
pre-filled retrieval result for the validated tags. -/
theorem fetch_and_add_merged_sub (s : AgentState) (nt : List String)
    (api : String → TagFetch) (ansO : Nat → Option (List AnswerRec)) :
    ∀ q ∈ (fetch_and_add_new_questions s nt api ansO).merged,
      q ∈ (prefill_answers_from_consolidated
            (fetch_questions_by_tags
              (validate_and_expand_tags nt get_all_available_tags) api)
            ansO).getD [] := by
  intro q hq
  simp only [fetch_and_add_new_questions] at hq
  revert hq
  split
  · intro hq; cases hq
  · split
    · intro hq; cases hq
    · intro hq
      exact (List.mem_filter.mp hq).1

/-- C3: `process_message` fetches new questions only when the analysis
reports `needs_new_questions` together with a non-empty `new_tags`; the
single retrieval call receives exactly the tags validated against the
retriever's available tags; the pre-fill of the retrieved questions
succeeds (retrieved records always carry the prompt keys) and every
question merged into the pool is an element of that pre-filled retrieval
result; and the final category grouping is recomputed from the displayed
(= all) questions after the merge. -/
theorem C3_process_message_pipeline :
    ∀ (s : AgentState) (analysis : Analysis) (api : String → TagFetch)
      (ansO : Nat → Option (List AnswerRec)) (updO : Option (List AnswerUpdate)),
      ((process_message s analysis api ansO updO).fetchCalls =
        if analysis.needs_new_questions ∧ analysis.new_tags ≠ []
        then [validate_and_expand_tags analysis.new_tags get_all_available_tags]
        else []) ∧
      (∃ filled, prefill_answers_from_consolidated
            (fetch_questions_by_tags
              (validate_and_expand_tags analysis.new_tags
                get_all_available_tags) api) ansO = some filled ∧
        ∀ q ∈ (process_message s analysis api ansO updO).merged, q ∈ filled) ∧
      (¬(analysis.needs_new_questions ∧ analysis.new_tags ≠ []) →
          (process_message s analysis api ansO updO).merged = []) ∧
      ((process_message s analysis api ansO updO).state.categories =
        organize_questions_by_category
          (process_message s analysis api ansO updO).state.all_questions) := by
  intro s analysis api ansO updO
  obtain ⟨filled, hf, -, -⟩ := prefill_forall₂
    (fetch_questions_by_tags
      (validate_and_expand_tags analysis.new_tags get_all_available_tags) api)
    ansO (fetch_questions_all _ api)
  by_cases hg : analysis.needs_new_questions ∧ analysis.new_tags ≠ []
  · refine ⟨?_, ?_, ?_, ?_⟩
    · simp only [process_message, if_pos hg]
      rw [fetch_and_add_fetchCalls]
    · refine ⟨filled, hf, ?_⟩
      intro q hq
      simp only [process_message, if_pos hg] at hq
      have h2 := fetch_and_add_merged_sub _ _ _ _ q hq
      rw [hf] at h2
      simpa using h2
    · intro hng
      exact absurd hg hng
    · simp only [process_message, if_pos hg]
  · refine ⟨?_, ?_, ?_, ?_⟩
    · simp only [process_message, if_neg hg]
    · refine ⟨filled, hf, ?_⟩
      intro q hq
      simp only [process_message, if_neg hg] at hq
      cases hq
    · intro _
      simp only [process_message, if_neg hg]
    · simp only [process_message, if_neg hg]

/-- Witness for the C3 theorem at concrete inputs. -/
theorem C3_process_message_pipeline_witness :
    (process_message ⟨["core hr"], [], [], []⟩ ⟨true, ["payroll"], []⟩
        (fun _ => TagFetch.reqError) (fun _ => none) none).fetchCalls =
      [["payroll"]] ∧
    (process_message ⟨["core hr"], [], [], []⟩ ⟨false, ["payroll"], []⟩
        (fun _ => TagFetch.reqError) (fun _ => none) none).merged = [] := by
  constructor
  · have := (C3_process_message_pipeline ⟨["core hr"], [], [], []⟩
      ⟨true, ["payroll"], []⟩ (fun _ => TagFetch.reqError) (fun _ => none) none).1
    rw [this]
    rfl
  · exact (C3_process_message_pipeline ⟨["core hr"], [], [], []⟩
      ⟨false, ["payroll"], []⟩ (fun _ => TagFetch.reqError) (fun _ => none)
      none).2.2.1 (by simp)

/-! ## C1 -/

/-- C1 — where the code breaks the claim.  `initialize` stores one shared
list object in both `all_questions` and `displayed_questions`
(conversational_agent.py lines 110–111), so the two `append` calls of
`_fetch_and_add_new_questions` (lines 395–396) push every merged question
onto that one list twice.  Starting from an initialized agent holding the
single question text `"A"` and processing a message that fetches the new
question text `"B"`, the resulting pool's texts are `["A", "B", "B"]` —
not pairwise distinct, although the merge's own guard (and its comment
`# Add to all_questions (avoid duplicates by question text)`) means to
keep them so. -/
theorem C1_duplicate_append_bug :
    ((process_message
        (initializeAgent ["core hr"]
          (fun t => if t = "core hr" then .ok [⟨"A", [], .i 0⟩]
            else if t = "payroll" then .ok [⟨"B", [], .i 0⟩] else .reqError)
          (fun _ => none))
        ⟨true, ["payroll"], []⟩
        (fun t => if t = "core hr" then .ok [⟨"A", [], .i 0⟩]
          else if t = "payroll" then .ok [⟨"B", [], .i 0⟩] else .reqError)
        (fun _ => none) none).state.all_questions.map questionText) =
      [Fval.s "A", Fval.s "B", Fval.s "B"] ∧
    ¬ List.Pairwise (fun a b => a ≠ b) [Fval.s "A", Fval.s "B", Fval.s "B"] := by
  constructor
  · rfl
  · decide

/-! ## C2 -/

/-- `jSetKey` keeps a dict of flat values flat. -/
theorem jSetKey_flat (d : Jobj) (k : String) (v : Jval)
    (hd : ∀ p ∈ d, jIsFlat p.2 = true) (hv : jIsFlat v = true) :
    ∀ p ∈ jSetKey d k v, jIsFlat p.2 = true := by
  induction d with
  | nil =>
    intro p hp
    simp only [jSetKey, List.mem_singleton] at hp
    subst hp
    exact hv
  | cons q rest ih =>
    obtain ⟨qk, qv⟩ := q
    intro p hp
    by_cases hqk : qk = k
    · rw [jSetKey, if_pos hqk] at hp
      rcases List.mem_cons.mp hp with he | hm
      · subst he; exact hv
      · exact hd p (List.mem_cons_of_mem _ hm)
    · rw [jSetKey, if_neg hqk] at hp
      rcases List.mem_cons.mp hp with he | hm
      · subst he; exact hd (qk, qv) (List.mem_cons_self _ _)
      · exact ih (fun r hr => hd r (List.mem_cons_of_mem _ hr)) p hm

/-- `jUpdate` keeps a dict of flat values flat. -/
theorem jUpdate_flat (sub : Jobj) :
    ∀ d : Jobj, (∀ p ∈ d, jIsFlat p.2 = true) → (∀ p ∈ sub, jIsFlat p.2 = true) →
      ∀ p ∈ jUpdate d sub, jIsFlat p.2 = true := by
  induction sub with
  | nil => intro d hd _ p hp; exact hd p hp
  | cons q rest ih =>
    intro d hd hsub p hp
    have hstep : jUpdate d (q :: rest) = jUpdate (jSetKey d q.1 q.2) rest := by
      simp [jUpdate]
    rw [hstep] at hp
    exact ih (jSetKey d q.1 q.2)
      (jSetKey_flat d q.1 q.2 hd (hsub q (List.mem_cons_self _ _)))
      (fun r hr => hsub r (List.mem_cons_of_mem _ hr)) p hp

/-- Flatness invariant of the three mutually recursive flattening loops,
by strong induction on the size of the processed structure. -/
theorem flatten_flat :
    ∀ n : Nat,
      (∀ (fields : List (String × Jval)) (parent : String) (acc : Jobj),
        sizeOf fields ≤ n → (∀ p ∈ acc, jIsFlat p.2 = true) →
        ∀ p ∈ flattenGo fields parent acc, jIsFlat p.2 = true) ∧
      (∀ (k : String) (v : Jval) (parent : String) (acc : Jobj),
        sizeOf v ≤ n → (∀ p ∈ acc, jIsFlat p.2 = true) →
        ∀ p ∈ flattenEntry k v parent acc, jIsFlat p.2 = true) ∧
      (∀ (xs : List Jval) (base : String) (i : Nat) (acc : Jobj),
        sizeOf xs ≤ n → (∀ p ∈ acc, jIsFlat p.2 = true) →
        ∀ p ∈ flattenArrGo xs base i acc, jIsFlat p.2 = true) := by
  intro n
  induction n using Nat.strong_induction_on with
  | _ n ih =>
    refine ⟨?_, ?_, ?_⟩
    · intro fields parent acc hsz hacc
      cases fields with
      | nil => simpa [flattenGo] using hacc
      | cons kv rest =>
        obtain ⟨k, v⟩ := kv
        have hrest : sizeOf rest < n := by
          simp only [List.cons.sizeOf_spec, Prod.mk.sizeOf_spec] at hsz
          omega
        have hv : sizeOf v < n := by
          simp only [List.cons.sizeOf_spec, Prod.mk.sizeOf_spec] at hsz
          omega
        by_cases hu : pyStartsWith k "_"
        · rw [show flattenGo ((k, v) :: rest) parent acc =
              flattenGo rest parent acc by simp [flattenGo, hu]]
          exact (ih (sizeOf rest) hrest).1 rest parent acc le_rfl hacc
        · rw [show flattenGo ((k, v) :: rest) parent acc =
              flattenGo rest parent (flattenEntry k v parent acc) by
                simp [flattenGo, hu]]
          exact (ih (sizeOf rest) hrest).1 rest parent _ le_rfl
            ((ih (sizeOf v) hv).2.1 k v parent acc le_rfl hacc)
    · intro k v parent acc hsz hacc
      cases v with
      | obj fs =>
        have hfs : sizeOf fs < n := by
          simp only [Jval.obj.sizeOf_spec] at hsz
          omega
        rw [show flattenEntry k (.obj fs) parent acc =
            jUpdate acc (flattenGo fs (mkFlatKey parent k) []) by
              simp [flattenEntry]]
        exact jUpdate_flat _ acc hacc
          ((ih (sizeOf fs) hfs).1 fs (mkFlatKey parent k) [] le_rfl (by simp))
      | arr xs =>
        have hxs : sizeOf xs < n := by
          simp only [Jval.arr.sizeOf_spec] at hsz
          omega
        by_cases hstr : xs.all jIsStr
        · rw [show flattenEntry k (.arr xs) parent acc =
              jSetKey acc (mkFlatKey parent k)
                (.str (if xs.isEmpty then "Not Available" else joinCommaSpace xs)) by
                simp [flattenEntry, hstr]]
          exact jSetKey_flat _ _ _ hacc rfl
        · by_cases hobj : xs.all jIsObj
          · rw [show flattenEntry k (.arr xs) parent acc =
                flattenArrGo xs (mkFlatKey parent k) 0 acc by
                  simp [flattenEntry, hstr, hobj]]
            exact (ih (sizeOf xs) hxs).2.2 xs (mkFlatKey parent k) 0 acc le_rfl hacc
          · rw [show flattenEntry k (.arr xs) parent acc =
                jSetKey acc (mkFlatKey parent k)
                  (.str (if xs.isEmpty then "Not Available" else pyReprOf (.arr xs))) by
                  simp [flattenEntry, hstr, hobj]]
            exact jSetKey_flat _ _ _ hacc rfl
      | null =>
        exact jSetKey_flat _ _ _ hacc rfl
      | str s =>
        exact jSetKey_flat _ _ _ hacc rfl
      | num m =>
        exact jSetKey_flat _ _ _ hacc rfl
      | bool b =>
        exact jSetKey_flat _ _ _ hacc rfl
    · intro xs base i acc hsz hacc
      cases xs with
      | nil => simpa [flattenArrGo] using hacc
      | cons item rest =>
        have hrest : sizeOf rest < n := by
          simp only [List.cons.sizeOf_spec] at hsz
          omega
        simp only [flattenArrGo]
        refine (ih (sizeOf rest) hrest).2.2 rest base (i + 1) _ le_rfl
          (jUpdate_flat _ acc hacc ?_)
        cases item with
        | obj fs =>
          have hfs : sizeOf fs < n := by
            simp only [List.cons.sizeOf_spec, Jval.obj.sizeOf_spec] at hsz
            omega
          exact (ih (sizeOf fs) hfs).1 fs (base ++ "_" ++ toString i) [] le_rfl
            (by simp)
        | str s => simp [flattenArrItem]
        | num m => simp [flattenArrItem]
        | bool b => simp [flattenArrItem]
        | null => simp [flattenArrItem]
        | arr ys => simp [flattenArrItem]

/-- C2: `_validate_extracted_data` (`flatten_json`) returns a flat
dictionary — no value is a dict or a list — and its per-entry behaviour is
as the claim states: keys starting with `'_'` are dropped at every level;
a nested dict is flattened into keys joined with `'_'`; a list of strings
becomes the comma-joined string (`'Not Available'` when empty); a list of
dicts is flattened with the index appended to the key; any other
(necessarily non-empty) list becomes its `str()`; `None` becomes
`'Not Available'`. -/
theorem C2_flatten_json :
    (∀ d : Jobj, ∀ p ∈ validate_extracted_data d, jIsFlat p.2 = true) ∧
    (∀ (k : String) (v : Jval) (rest : List (String × Jval)) (parent : String)
        (acc : Jobj), pyStartsWith k "_" = true →
        flattenGo ((k, v) :: rest) parent acc = flattenGo rest parent acc) ∧
    (∀ (k k2 : String) (v : Jval), pyStartsWith k "_" = false →
        pyStartsWith k2 "_" = false → jIsFlat v = true → v ≠ .null → k ≠ "" →
        validate_extracted_data [(k, .obj [(k2, v)])] = [(k ++ "_" ++ k2, v)]) ∧
    (∀ (k : String) (xs : List Jval) (parent : String) (acc : Jobj),
        xs.all jIsStr = true →
        flattenEntry k (.arr xs) parent acc =
          jSetKey acc (mkFlatKey parent k)
            (.str (if xs.isEmpty then "Not Available" else joinCommaSpace xs))) ∧
    (∀ (k : String) (xs : List Jval) (parent : String) (acc : Jobj),
        xs.all jIsStr = false → xs.all jIsObj = true →
        flattenEntry k (.arr xs) parent acc =
          flattenArrGo xs (mkFlatKey parent k) 0 acc) ∧
    (∀ (fs : List (String × Jval)) (rest : List Jval) (base : String) (i : Nat)
        (acc : Jobj),
        flattenArrGo (Jval.obj fs :: rest) base i acc =
          flattenArrGo rest base (i + 1)
            (jUpdate acc (flattenGo fs (base ++ "_" ++ toString i) []))) ∧
    (∀ (k : String) (xs : List Jval) (parent : String) (acc : Jobj),
        xs.all jIsStr = false → xs.all jIsObj = false →
        flattenEntry k (.arr xs) parent acc =
          jSetKey acc (mkFlatKey parent k) (.str (pyReprOf (.arr xs)))) ∧
    (∀ (k : String) (parent : String) (acc : Jobj),
        flattenEntry k .null parent acc =
          jSetKey acc (mkFlatKey parent k) (.str "Not Available")) := by
  refine ⟨?_, ?_, ?_, ?_, ?_, ?_, ?_, ?_⟩
  · intro d p hp
    exact (flatten_flat (sizeOf d)).1 d "" [] le_rfl (by simp) p hp
  · intro k v rest parent acc hu
    simp [flattenGo, hu]
  · intro k k2 v hk hk2 hv hnull hkne
    cases v with
    | null => exact absurd rfl hnull
    | obj fs => simp [jIsFlat] at hv
    | arr xs => simp [jIsFlat] at hv
    | str s =>
      simp [validate_extracted_data, flattenGo, flattenEntry, hk, hk2, jUpdate,
        jSetKey, mkFlatKey, hkne]
    | num m =>
      simp [validate_extracted_data, flattenGo, flattenEntry, hk, hk2, jUpdate,
        jSetKey, mkFlatKey, hkne]
    | bool b =>
      simp [validate_extracted_data, flattenGo, flattenEntry, hk, hk2, jUpdate,
        jSetKey, mkFlatKey, hkne]
  · intro k xs parent acc hstr
    simp [flattenEntry, hstr]
  · intro k xs parent acc hstr hobj
    simp [flattenEntry, hstr, hobj]
  · intro fs rest base i acc
    simp [flattenArrGo, flattenArrItem]
  · intro k xs parent acc hstr hobj
    have hne : xs.isEmpty = false := by
      cases xs with
      | nil => simp at hstr
      | cons y ys => simp
    simp [flattenEntry, hstr, hobj, hne]
  · intro k parent acc
    rfl

/-- Witness for the C2 theorem at concrete inputs. -/
theorem C2_flatten_json_witness :
    jIsFlat (Jval.str "x") = true ∧
    flattenGo [("_meta", Jval.num 1), ("a", Jval.str "x")] "" [] =
      flattenGo [("a", Jval.str "x")] "" [] ∧
    validate_extracted_data [("a", .obj [("b", Jval.str "x")])] =
      [("a_b", Jval.str "x")] ∧
    flattenEntry "l" (.arr [Jval.str "p", Jval.str "q"]) "" [] =
      jSetKey [] (mkFlatKey "" "l")
        (.str (if ([Jval.str "p", Jval.str "q"] : List Jval).isEmpty
          then "Not Available" else joinCommaSpace [Jval.str "p", Jval.str "q"])) ∧
    flattenEntry "m" (.arr [Jval.num 1, Jval.str "s"]) "" [] =
      jSetKey [] (mkFlatKey "" "m") (.str (pyReprOf (.arr [Jval.num 1, Jval.str "s"]))) := by
  refine ⟨?_, ?_, ?_, ?_, ?_⟩
  · exact (C2_flatten_json.1 [("a", Jval.str "x")] ("a", Jval.str "x")
      (by rw [show validate_extracted_data [("a", Jval.str "x")] =
        [("a", Jval.str "x")] from rfl]; exact List.mem_singleton.mpr rfl))
  · exact C2_flatten_json.2.1 "_meta" (Jval.num 1) [("a", Jval.str "x")] "" []
      (by rfl)
  · exact C2_flatten_json.2.2.1 "a" "b" (Jval.str "x") (by rfl) (by rfl) rfl
      (by simp) (by simp)
  · exact C2_flatten_json.2.2.2.1 "l" [Jval.str "p", Jval.str "q"] "" [] (by rfl)
  · exact C2_flatten_json.2.2.2.2.2.2.1 "m" [Jval.num 1, Jval.str "s"] "" []
      (by rfl) (by rfl)

/-! ## C7 -/

/-- The trailing-comma substitution is the identity on texts with no
`,\s*X` match — at every fuel value, since exhausted fuel also returns the
input unchanged. -/
theorem reSubCommaCloseGo_id (close : Char) :
    ∀ (fuel : Nat) (l : List Char), hasCommaWsClose close l = false →
      reSubCommaCloseGo close fuel l = l := by
  intro fuel
  induction fuel with
  | zero => intro l _; rfl
  | succ n ih =>
    intro l h
    cases l with
    | nil => rfl
    | cons c rest =>
      rw [hasCommaWsClose, Bool.or_eq_false_iff] at h
      by_cases hc : c = ','
      · subst hc
        simp only [reSubCommaCloseGo, if_pos rfl]
        cases hd : rest.dropWhile reWs with
        | nil => simp [ih rest h.2]
        | cons c' rest' =>
          have hcc : ¬ c' = close := by
            have h1 := h.1
            rw [hd] at h1
            simpa using h1
          simp [hcc, ih rest h.2]
      · simp only [reSubCommaCloseGo, if_neg hc]
        rw [ih rest h.2]

/-- C7 fails as stated: for the valid JSON document `{"a": ", }"}` the
trailing-comma cleanup rewrites the `,␣}` inside the string literal, so
`_clean_json_response` returns `{"a": "}"}` — not the value `json.loads`
assigns to the document. -/
theorem C7_counterexample :
    clean_json_response "\x7b\"a\": \", \x7d\"\x7d" =
      .ok (.obj [("a", .str "\x7d")]) ∧
    jsonParse "\x7b\"a\": \", \x7d\"\x7d" =
      some (.obj [("a", .str ", \x7d")]) ∧
    Jval.obj [("a", .str "\x7d")] ≠ Jval.obj [("a", .str ", \x7d")] := by
  refine ⟨rfl, rfl, by simp⟩

/-- C7 amended: for every response without a markdown fence whose stripped
text is a valid JSON document that ends with `'}'` or `']'` and contains no
occurrence of `','` followed by whitespace and `'}'` or `']'` (in a valid
document such an occurrence can only lie inside a string literal),
`_clean_json_response` returns exactly the `json.loads` value of the
document: the cleanup and repair steps leave such documents untouched. -/
theorem C7_clean_json_passthrough :
    ∀ (response : String) (v : Jval),
      pyContainsSub response "```json" = false →
      pyContainsSub response "```" = false →
      (pyEndsWith (pyStrip response) "\x7d" = true ∨
        pyEndsWith (pyStrip response) "]" = true) →
      hasCommaWsClose '\x7d' (pyStrip response).data = false →
      hasCommaWsClose ']' (pyStrip response).data = false →
      jsonParse (pyStrip response) = some v →
      clean_json_response response = .ok v := by
  intro response v h1 h2 hend hc1 hc2 hp
  have e1 : stripFenceClean response = response := by
    simp [stripFenceClean, h1, h2]
  have e2 : fixTruncation (pyStrip response) = pyStrip response := by
    simp [fixTruncation, hend]
  have e3 : reSubCommaClose '\x7d' (pyStrip response).data =
      (pyStrip response).data :=
    reSubCommaCloseGo_id '\x7d' _ _ hc1
  have e4 : reSubCommaClose ']' (pyStrip response).data =
      (pyStrip response).data :=
    reSubCommaCloseGo_id ']' _ _ hc2
  have e5 : (⟨(pyStrip response).data⟩ : String) = pyStrip response := rfl
  simp only [clean_json_response, e1, e2, e3, e4, e5, hp]

/-- Witness for the amended C7 theorem at a concrete input. -/
theorem C7_clean_json_passthrough_witness :
    clean_json_response "\x7b\"a\": 1\x7d" = .ok (.obj [("a", Jval.num 1)]) := by
  exact C7_clean_json_passthrough "\x7b\"a\": 1\x7d" (.obj [("a", Jval.num 1)])
    rfl rfl (Or.inl rfl) rfl rfl rfl

end ConfigCopilot
